import Mathlib

/-!
# Ray/curve intersection of `shapes/curve.cpp`

A shallow embedding of the cubic Bézier kernel, the curve segment and the
recursive intersector of `src/shapes/curve.cpp`, with the properties of its
specification stated and proved over it.

Conventions of the embedding.

* `Float` is idealised as the exact rationals `ℚ`: every theorem below is a
  statement about the arithmetic the code writes down, free of rounding.
  Division follows Lean's convention `x / 0 = 0`. Where the code divides by
  zero, floating point gives an infinity or a NaN, which the rationals do not
  have: the embedding does not follow the code there. Two equal ribbon
  normals reach such a division, `1 / std::sin(normalAngle)` in the
  constructor of `CurveCommon`; the statements about ribbons either keep to
  inputs where no divisor of the ribbon width is zero (`ribbonDefined`) or say
  where the embedding and the code differ.
* The transcendental library calls (`std::sqrt`, `std::sin`, `std::acos`) are
  not rational functions; they are gathered in `FloatMath` and every
  definition that calls one of them takes the record as its first argument.
  The calls `std::log` and `std::round` of the depth heuristic are arguments
  of `refinementDepth`, and the change of frame that `Curve::Intersect` builds
  with `LookAt` is an argument of `Curve.Intersect`.
* `int` is a 32-bit two's complement integer.
* `Point3f`, `Vector3f` and `Normal3f` are the same triple of coordinates;
  `Point2f` and `Vector2f` the same pair.
-/

namespace Pbrt

/-! ## Geometry used by the curve code (`core/geometry.h`, `core/pbrt.h`) -/

/-- Triple of coordinates, the carrier of `Point3f`. -/
structure Point3f where
  x : ℚ
  y : ℚ
  z : ℚ
deriving DecidableEq

/-- The type `Vector3f` has the coordinates of `Point3f`. -/
abbrev Vector3f := Point3f

/-- The type `Normal3f` has the coordinates of `Point3f`. -/
abbrev Normal3f := Point3f

/-- Pair of coordinates, the carrier of `Point2f`. -/
structure Point2f where
  x : ℚ
  y : ℚ
deriving DecidableEq

/-- The type `Vector2f` has the coordinates of `Point2f`. -/
abbrev Vector2f := Point2f

namespace Point3f

/-- Modelled from the spec: componentwise `operator+` of `core/geometry.h`. -/
def add (a b : Point3f) : Point3f := ⟨a.x + b.x, a.y + b.y, a.z + b.z⟩

/-- Modelled from the spec: componentwise `operator-` of `core/geometry.h`. -/
def sub (a b : Point3f) : Point3f := ⟨a.x - b.x, a.y - b.y, a.z - b.z⟩

/-- Modelled from the spec: the scalar multiple `f * p` of `core/geometry.h`. -/
def smul (f : ℚ) (a : Point3f) : Point3f := ⟨f * a.x, f * a.y, f * a.z⟩

/-- Modelled from the spec: division by a scalar, `p / f`, of `core/geometry.h`. -/
def sdiv (a : Point3f) (f : ℚ) : Point3f := ⟨a.x / f, a.y / f, a.z / f⟩

/-- Modelled from the spec: unary minus of `core/geometry.h`. -/
def neg (a : Point3f) : Point3f := ⟨-a.x, -a.y, -a.z⟩

end Point3f

namespace Point2f

/-- Modelled from the spec: componentwise `operator-` of `core/geometry.h`. -/
def sub (a b : Point2f) : Point2f := ⟨a.x - b.x, a.y - b.y⟩

/-- Modelled from the spec: unary minus of `core/geometry.h`. -/
def neg (a : Point2f) : Point2f := ⟨-a.x, -a.y⟩

/-- Modelled from the spec: the conversions `Point2f(p)` and `Vector2f(p)` of a
`Point3f` in `core/geometry.h`, which drop `z`. -/
def ofPoint3 (p : Point3f) : Point2f := ⟨p.x, p.y⟩

end Point2f

/-- Modelled from the spec: `Lerp` of `core/pbrt.h`, the linear interpolation
`(1 - t) * v1 + t * v2` that the spec writes `lerp(t, v1, v2)`. -/
def Lerp (t v1 v2 : ℚ) : ℚ := (1 - t) * v1 + t * v2

/-- Modelled from the spec: `Lerp` of `core/geometry.h` on `Point3f`,
`(1 - t) * p0 + t * p1` coordinate by coordinate. -/
def Lerp3 (t : ℚ) (p0 p1 : Point3f) : Point3f :=
  Point3f.add (Point3f.smul (1 - t) p0) (Point3f.smul t p1)

/-- Modelled from the spec: `Lerp` of `core/geometry.h` on `Point2f`. -/
def Lerp2 (t : ℚ) (p0 p1 : Point2f) : Point2f :=
  ⟨(1 - t) * p0.x + t * p1.x, (1 - t) * p0.y + t * p1.y⟩

/-- Modelled from the spec: `Clamp` of `core/pbrt.h`: `low` below `low`,
`high` above `high`, the value itself otherwise. -/
def Clamp (val low high : ℚ) : ℚ :=
  if val < low then low else if val > high then high else val

/-- Modelled from the spec: `Dot` of `core/geometry.h` on `Vector2f`. -/
def Dot2 (a b : Vector2f) : ℚ := a.x * b.x + a.y * b.y

/-- Modelled from the spec: `Dot` of `core/geometry.h` on `Vector3f` and
`Normal3f`. -/
def Dot3 (a b : Vector3f) : ℚ := a.x * b.x + a.y * b.y + a.z * b.z

/-- Modelled from the spec: `AbsDot` of `core/geometry.h`, the absolute value
of the dot product. -/
def AbsDot (a b : Vector3f) : ℚ := |Dot3 a b|

/-- The library calls of `<cmath>` that the curve code makes. -/
structure FloatMath where
  sqrt : ℚ → ℚ
  sin : ℚ → ℚ
  acos : ℚ → ℚ

/-- Modelled from the spec: `Vector3f::Length` of `core/geometry.h`, the
square root of the squared length. -/
def Length (M : FloatMath) (v : Vector3f) : ℚ :=
  M.sqrt (v.x * v.x + v.y * v.y + v.z * v.z)

/-- Modelled from the spec: `Normalize` of `core/geometry.h`, the vector
divided by its length. -/
def Normalize (M : FloatMath) (v : Vector3f) : Vector3f :=
  Point3f.sdiv v (Length M v)

/-- Axis-aligned box `Bounds3f` with its two corners. -/
structure Bounds3f where
  pMin : Point3f
  pMax : Point3f
deriving DecidableEq

/-- Modelled from the spec: the two-point constructor `Bounds3f(p1, p2)` of
`core/geometry.h`, the smallest box holding both points. -/
def Bounds3f.ofPoints (p1 p2 : Point3f) : Bounds3f :=
  ⟨⟨min p1.x p2.x, min p1.y p2.y, min p1.z p2.z⟩,
   ⟨max p1.x p2.x, max p1.y p2.y, max p1.z p2.z⟩⟩

/-- Modelled from the spec: `Union` of two boxes of `core/geometry.h`. -/
def Union (b1 b2 : Bounds3f) : Bounds3f :=
  ⟨⟨min b1.pMin.x b2.pMin.x, min b1.pMin.y b2.pMin.y, min b1.pMin.z b2.pMin.z⟩,
   ⟨max b1.pMax.x b2.pMax.x, max b1.pMax.y b2.pMax.y, max b1.pMax.z b2.pMax.z⟩⟩

/-- Modelled from the spec: `Expand` of `core/geometry.h`, which moves both
corners outwards by `delta` and hands them to the two-point constructor. -/
def Expand (b : Bounds3f) (delta : ℚ) : Bounds3f :=
  Bounds3f.ofPoints (Point3f.sub b.pMin ⟨delta, delta, delta⟩)
    (Point3f.add b.pMax ⟨delta, delta, delta⟩)

/-- Modelled from the spec: `Overlaps` of `core/geometry.h`: the boxes share
a point in each of the three coordinates. -/
def Overlaps (b1 b2 : Bounds3f) : Bool :=
  (decide (b1.pMax.x ≥ b2.pMin.x) && decide (b1.pMin.x ≤ b2.pMax.x)) &&
  (decide (b1.pMax.y ≥ b2.pMin.y) && decide (b1.pMin.y ≤ b2.pMax.y)) &&
  (decide (b1.pMax.z ≥ b2.pMin.z) && decide (b1.pMin.z ≤ b2.pMax.z))

/-- Modelled from the spec: `Inside` of `core/geometry.h`: the point lies in
the closed box. -/
def Inside (p : Point3f) (b : Bounds3f) : Prop :=
  (b.pMin.x ≤ p.x ∧ p.x ≤ b.pMax.x) ∧ (b.pMin.y ≤ p.y ∧ p.y ≤ b.pMax.y) ∧
  (b.pMin.z ≤ p.z ∧ p.z ≤ b.pMax.z)

instance (p : Point3f) (b : Bounds3f) : Decidable (Inside p b) := by
  unfold Inside; infer_instance

/-- The point lies in the open box: no coordinate touches a face. -/
def InsideStrict (p : Point3f) (b : Bounds3f) : Prop :=
  (b.pMin.x < p.x ∧ p.x < b.pMax.x) ∧ (b.pMin.y < p.y ∧ p.y < b.pMax.y) ∧
  (b.pMin.z < p.z ∧ p.z < b.pMax.z)

instance (p : Point3f) (b : Bounds3f) : Decidable (InsideStrict p b) := by
  unfold InsideStrict; infer_instance

/-! ## Curve utility functions -/

/-- Four control points, the argument `const Point3f cp[4]`. -/
structure CP4 where
  p0 : Point3f
  p1 : Point3f
  p2 : Point3f
  p3 : Point3f
deriving DecidableEq

/-- Seven control points, the output `Point3f cpSplit[7]`. -/
structure CP7 where
  q0 : Point3f
  q1 : Point3f
  q2 : Point3f
  q3 : Point3f
  q4 : Point3f
  q5 : Point3f
  q6 : Point3f
deriving DecidableEq

/-- The view `&cpSplit[0]`: the first four of the seven points. -/
def CP7.lo (s : CP7) : CP4 := ⟨s.q0, s.q1, s.q2, s.q3⟩

/-- The view `&cpSplit[3]`: the last four of the seven points. -/
def CP7.hi (s : CP7) : CP4 := ⟨s.q3, s.q4, s.q5, s.q6⟩

/-- Function `BlossomBezier` (curve.cpp:43-48). -/
def BlossomBezier (p : CP4) (u0 u1 u2 : ℚ) : Point3f :=
  let a0 := Lerp3 u0 p.p0 p.p1
  let a1 := Lerp3 u0 p.p1 p.p2
  let a2 := Lerp3 u0 p.p2 p.p3
  let b0 := Lerp3 u1 a0 a1
  let b1 := Lerp3 u1 a1 a2
  Lerp3 u2 b0 b1

/-- Function `SubdivideBezier` (curve.cpp:50-58). -/
def SubdivideBezier (cp : CP4) : CP7 :=
  { q0 := cp.p0
    q1 := Point3f.sdiv (Point3f.add cp.p0 cp.p1) 2
    q2 := Point3f.sdiv (Point3f.add (Point3f.add cp.p0 (Point3f.smul 2 cp.p1)) cp.p2) 4
    q3 := Point3f.sdiv
      (Point3f.add (Point3f.add (Point3f.add cp.p0 (Point3f.smul 3 cp.p1))
        (Point3f.smul 3 cp.p2)) cp.p3) 8
    q4 := Point3f.sdiv (Point3f.add (Point3f.add cp.p1 (Point3f.smul 2 cp.p2)) cp.p3) 4
    q5 := Point3f.sdiv (Point3f.add cp.p2 cp.p3) 2
    q6 := cp.p3 }

/-- Function `EvalBezier` (curve.cpp:60-67), the returned point. -/
def EvalBezier (cp : CP4) (t : ℚ) : Point3f :=
  let cp10 := Lerp3 t cp.p0 cp.p1
  let cp11 := Lerp3 t cp.p1 cp.p2
  let cp12 := Lerp3 t cp.p2 cp.p3
  let cp20 := Lerp3 t cp10 cp11
  let cp21 := Lerp3 t cp11 cp12
  Lerp3 t cp20 cp21

/-- Function `EvalBezier` (curve.cpp:60-67), the vector written to `*deriv`. -/
def EvalBezierDeriv (cp : CP4) (t : ℚ) : Vector3f :=
  let cp10 := Lerp3 t cp.p0 cp.p1
  let cp11 := Lerp3 t cp.p1 cp.p2
  let cp12 := Lerp3 t cp.p2 cp.p3
  let cp20 := Lerp3 t cp10 cp11
  let cp21 := Lerp3 t cp11 cp12
  Point3f.smul 3 (Point3f.sub cp21 cp20)

/-- The four blossoms with which `ObjectBound`, `Intersect` and `Area` reshape
the control points for the sub-range `[uMin, uMax]` (curve.cpp:111-115,
131-135, 272-276). -/
def subrangeCP (cp : CP4) (uMin uMax : ℚ) : CP4 :=
  { p0 := BlossomBezier cp uMin uMin uMin
    p1 := BlossomBezier cp uMin uMin uMax
    p2 := BlossomBezier cp uMin uMax uMax
    p3 := BlossomBezier cp uMax uMax uMax }

/-! ## Curve method definitions -/

/-- The enumeration `CurveType` of `shapes/curve.h`. -/
inductive CurveType where
  | Flat
  | Cylinder
  | Ribbon
deriving DecidableEq

/-- The descriptor `CurveCommon` shared by the segments of one curve. The
array `width[2]` is the pair `width0`, `width1` and `n[2]` the pair `n0`,
`n1`. -/
structure CurveCommon where
  curveType : CurveType
  cpObj : CP4
  width0 : ℚ
  width1 : ℚ
  n0 : Normal3f
  n1 : Normal3f
  normalAngle : ℚ
  invSinNormalAngle : ℚ
deriving DecidableEq

/-- Constructor `CurveCommon::CurveCommon` (curve.cpp:77-88). The argument `norm` is
`none` for a null pointer; the members the constructor then leaves
uninitialised are given the value zero. When `sin(normalAngle)` is zero, as it
is for two equal normals, the code stores an infinite `invSinNormalAngle` and
the leaf test multiplies it by `sin 0 = 0`, which is a NaN: the value
`1 / 0 = 0` that this definition stores is not the code's, and the width the
embedding computes from it is not the width of the code. -/
def CurveCommon.ctor (M : FloatMath) (c : CP4) (width0 width1 : ℚ)
    (curveType : CurveType) (norm : Option (Normal3f × Normal3f)) : CurveCommon :=
  match norm with
  | some (norm0, norm1) =>
    let n0 := Normalize M norm0
    let n1 := Normalize M norm1
    let normalAngle := M.acos (Clamp (Dot3 n0 n1) 0 1)
    let invSinNormalAngle := 1 / M.sin normalAngle
    { curveType := curveType, cpObj := c, width0 := width0, width1 := width1,
      n0 := n0, n1 := n1, normalAngle := normalAngle,
      invSinNormalAngle := invSinNormalAngle }
  | none =>
    { curveType := curveType, cpObj := c, width0 := width0, width1 := width1,
      n0 := ⟨0, 0, 0⟩, n1 := ⟨0, 0, 0⟩, normalAngle := 0, invSinNormalAngle := 0 }

/-- A curve segment `Curve`: the shared descriptor and the sub-range. The
transforms of the `Shape` base are left out (the object-to-world map is the
identity in this embedding). -/
structure Curve where
  reverseOrientation : Bool
  common : CurveCommon
  uMin : ℚ
  uMax : ℚ
deriving DecidableEq

/-- Reduction of an integer to the range of a 32-bit `int`. -/
def wrapInt32 (v : Int) : Int := (v + 2 ^ 31) % 2 ^ 32 - 2 ^ 31

/-- The expression `1 << splitDepth` on 32-bit `int`: undefined (`none`) for a
negative count or a count of 32 or more, the wrapped power of two otherwise
(so `1 << 31` is `INT_MIN`). -/
def shiftLeftOne (splitDepth : Int) : Option Int :=
  if 0 ≤ splitDepth ∧ splitDepth < 32 then some (wrapInt32 (2 ^ splitDepth.toNat))
  else none

/-- Function `CreateCurve` (curve.cpp:90-107). The result is `none` when the shift is
undefined or when `segments.reserve(nSegments)` is handed a negative count,
which converts to a size above `max_size()` and throws `std::length_error`;
otherwise the vector of segments in the order of the loop. -/
def CreateCurve (M : FloatMath) (reverseOrientation : Bool) (c : CP4) (w0 w1 : ℚ)
    (type : CurveType) (norm : Option (Normal3f × Normal3f)) (splitDepth : Int) :
    Option (List Curve) :=
  let common := CurveCommon.ctor M c w0 w1 type norm
  match shiftLeftOne splitDepth with
  | none => none
  | some nSegments =>
    if nSegments < 0 then none
    else
      some ((List.range nSegments.toNat).map fun (i : Nat) =>
        { reverseOrientation := reverseOrientation
          common := common
          uMin := ((i : Int) : ℚ) / (nSegments : ℚ)
          uMax := (((i : Int) + 1 : Int) : ℚ) / (nSegments : ℚ) })

/-- Method `Curve::ObjectBound` (curve.cpp:109-121). -/
def Curve.ObjectBound (c : Curve) : Bounds3f :=
  let cpObj := subrangeCP c.common.cpObj c.uMin c.uMax
  let b := Union (Bounds3f.ofPoints cpObj.p0 cpObj.p1) (Bounds3f.ofPoints cpObj.p2 cpObj.p3)
  let width0 := Lerp c.uMin c.common.width0 c.common.width1
  let width1 := Lerp c.uMax c.common.width0 c.common.width1
  Expand b (max width0 width1 * (1 / 2))

/-- The `Ray` of `core/geometry.h`: origin, direction, `tMax` and time. -/
structure Ray where
  o : Point3f
  d : Vector3f
  tMax : ℚ
  time : ℚ
deriving DecidableEq

/-- What `recursiveIntersect` writes on a hit when `tHit` is supplied: `*tHit`
and the members of the `SurfaceInteraction` built at curve.cpp:261-263, before
the object-to-world map (the identity here). The member `dpdv` is left out: it
plays no part in the control flow and needs `Transform`, `Rotate` and `Cross`,
which are outside the Bézier code. -/
structure Hit where
  tHit : ℚ
  p : Point3f
  pError : Vector3f
  uv : Point2f
  wo : Vector3f
  dpdu : Vector3f
  time : ℚ
deriving DecidableEq

/-- The cull of `recursiveIntersect` (curve.cpp:165-174): `true` when
`curveBounds` and `originBounds` overlap. -/
def cullOverlaps (M : FloatMath) (common : CurveCommon) (ray : Ray) (cp : CP4)
    (u0 u1 : ℚ) : Bool :=
  let maxWidth := max (Lerp u0 common.width0 common.width1)
    (Lerp u1 common.width0 common.width1)
  let curveBounds := Union (Bounds3f.ofPoints cp.p0 cp.p1) (Bounds3f.ofPoints cp.p2 cp.p3)
  let rayLength := Length M ray.d
  let zMax := rayLength * ray.tMax
  let originBounds := Bounds3f.ofPoints
    ⟨-(1 / 2) * maxWidth, -(1 / 2) * maxWidth, 0⟩
    ⟨(1 / 2) * maxWidth, (1 / 2) * maxWidth, zMax⟩
  Overlaps curveBounds originBounds

/-- The start tangent of the leaf after its sign flip (curve.cpp:192-194). -/
def startTangent (cp : CP4) : Vector2f :=
  let segmentDirection := Point2f.sub (Point2f.ofPoint3 cp.p3) (Point2f.ofPoint3 cp.p0)
  let startTangent := Point2f.sub (Point2f.ofPoint3 cp.p1) (Point2f.ofPoint3 cp.p0)
  if Dot2 segmentDirection startTangent < 0 then Point2f.neg startTangent else startTangent

/-- The end tangent of the leaf after its sign flip (curve.cpp:198-199). -/
def endTangent (cp : CP4) : Vector2f :=
  let segmentDirection := Point2f.sub (Point2f.ofPoint3 cp.p3) (Point2f.ofPoint3 cp.p0)
  let endTangent := Point2f.sub (Point2f.ofPoint3 cp.p2) (Point2f.ofPoint3 cp.p3)
  if Dot2 segmentDirection endTangent < 0 then Point2f.neg endTangent else endTangent

/-- The effective width of the leaf (curve.cpp:216-227): the interpolated
width, scaled for a ribbon by `AbsDot(nHit, -ray.d / rayLength)`. -/
def hitWidthAt (M : FloatMath) (common : CurveCommon) (ray : Ray) (u : ℚ) : ℚ :=
  let rayLength := Length M ray.d
  let hitWidth := Lerp u common.width0 common.width1
  if common.curveType = CurveType.Ribbon then
    let sin0 := M.sin ((1 - u) * common.normalAngle) * common.invSinNormalAngle
    let sin1 := M.sin (u * common.normalAngle) * common.invSinNormalAngle
    let nHit := Point3f.add (Point3f.smul sin0 common.n0) (Point3f.smul sin1 common.n1)
    hitWidth * AbsDot nHit (Point3f.sdiv (Point3f.neg ray.d) rayLength)
  else hitWidth

/-- The leaf branch of `recursiveIntersect` (curve.cpp:186-267): the test of
the ray against the linearised segment, `none` for `return false`. -/
def leafIntersect (M : FloatMath) (common : CurveCommon) (ray : Ray) (cp : CP4)
    (u0 u1 : ℚ) : Option Hit :=
  let rayLength := Length M ray.d
  let zMax := rayLength * ray.tMax
  let segmentDirection := Point2f.sub (Point2f.ofPoint3 cp.p3) (Point2f.ofPoint3 cp.p0)
  if Dot2 (startTangent cp) (Point2f.neg (Point2f.ofPoint3 cp.p0)) < 0 then none
  else if Dot2 (endTangent cp) (Point2f.ofPoint3 cp.p3) < 0 then none
  else
    let w0 := Dot2 segmentDirection segmentDirection
    if w0 = 0 then none
    else
      let w := -Dot2 (Point2f.ofPoint3 cp.p0) segmentDirection / w0
      let u := Clamp (Lerp w u0 u1) u0 u1
      let closestPt := Lerp2 w (Point2f.ofPoint3 cp.p0) (Point2f.ofPoint3 cp.p3)
      let ptLineDist := M.sqrt (closestPt.x * closestPt.x + closestPt.y * closestPt.y)
      let edgeFunc := segmentDirection.x * -cp.p0.y + cp.p0.x * segmentDirection.y
      let hitWidth := hitWidthAt M common ray u
      let v := if edgeFunc > 0 then 1 / 2 + ptLineDist / hitWidth
        else 1 / 2 - ptLineDist / hitWidth
      let p := EvalBezier cp (Clamp w 0 1)
      if p.x * p.x + p.y * p.y > hitWidth * hitWidth * (1 / 4) then none
      else if p.z < 0 ∨ p.z > zMax then none
      else
        some
          { tHit := p.z / rayLength
            p := Point3f.add ray.o (Point3f.smul p.z ray.d)
            pError := ⟨2 * hitWidth, 2 * hitWidth, 2 * hitWidth⟩
            uv := ⟨u, v⟩
            wo := Point3f.neg ray.d
            dpdu := EvalBezierDeriv common.cpObj u
            time := ray.time }

/-- The line parameter `w` of the foot of the perpendicular from the ray to
the chord `cp[0]-cp[3]`, as the leaf computes it (curve.cpp:203-205). -/
def chordParam (cp : CP4) : ℚ :=
  -Dot2 (Point2f.ofPoint3 cp.p0)
      (Point2f.sub (Point2f.ofPoint3 cp.p3) (Point2f.ofPoint3 cp.p0)) /
    Dot2 (Point2f.sub (Point2f.ofPoint3 cp.p3) (Point2f.ofPoint3 cp.p0))
      (Point2f.sub (Point2f.ofPoint3 cp.p3) (Point2f.ofPoint3 cp.p0))

/-- Method `Curve::recursiveIntersect` (curve.cpp:161-268) on the descriptor `common`
of the segment. The result is `none` for `return false` and `some h` for
`return true`, with `h` what is written when `tHit` is supplied. The `int`
argument `depth` is a natural number: the code takes the leaf branch for
every `depth <= 0`. The left call comes first and the right call is made only
when the left one returns `false`, as `||` does. -/
def recursiveIntersect (M : FloatMath) (common : CurveCommon) (ray : Ray) :
    CP4 → ℚ → ℚ → Nat → Option Hit
  | cp, u0, u1, 0 =>
    if cullOverlaps M common ray cp u0 u1 = false then none
    else leafIntersect M common ray cp u0 u1
  | cp, u0, u1, depth + 1 =>
    if cullOverlaps M common ray cp u0 u1 = false then none
    else
      let umid := (1 / 2) * (u0 + u1)
      let cpSplit := SubdivideBezier cp
      match recursiveIntersect M common ray cpSplit.lo u0 umid depth with
      | some h => some h
      | none => recursiveIntersect M common ray cpSplit.hi umid u1 depth

/-- The sub-segments on which the leaf branch runs when the recursion of
`recursiveIntersect` is followed to the bottom without culling: control
points and parameter interval of each leaf, from left to right. -/
def leafSegments : Nat → CP4 → ℚ → ℚ → List (CP4 × ℚ × ℚ)
  | 0, cp, u0, u1 => [(cp, u0, u1)]
  | depth + 1, cp, u0, u1 =>
    leafSegments depth (SubdivideBezier cp).lo u0 ((1 / 2) * (u0 + u1)) ++
    leafSegments depth (SubdivideBezier cp).hi ((1 / 2) * (u0 + u1)) u1

/-- The library record used to evaluate the code on concrete inputs: the
rational square root of Mathlib, exact on squares of rationals, and constant
stand-ins for the two trigonometric calls, which no concrete input below
reaches with a ribbon. -/
def exactMath : FloatMath :=
  { sqrt := Rat.sqrt, sin := fun _ => 0, acos := fun _ => 0 }

/-- Modelled from the spec: `DistanceSquared` of `core/geometry.h`, the
squared distance of two points. -/
def DistanceSquared (p1 p2 : Point3f) : ℚ :=
  (p1.x - p2.x) * (p1.x - p2.x) + (p1.y - p2.y) * (p1.y - p2.y) +
    (p1.z - p2.z) * (p1.z - p2.z)

/-- The scalar cubic that `EvalBezier` computes in each coordinate. -/
def evalCoord (t a b c d : ℚ) : ℚ :=
  Lerp t (Lerp t (Lerp t a b) (Lerp t b c)) (Lerp t (Lerp t b c) (Lerp t c d))

/-! ## Concrete inputs -/

/-- The straight curve of the spec's scenarios: `(0,0,0)`, `(1,0,0)`,
`(2,0,0)`, `(3,0,0)`. -/
def straightCP : CP4 := ⟨⟨0, 0, 0⟩, ⟨1, 0, 0⟩, ⟨2, 0, 0⟩, ⟨3, 0, 0⟩⟩

/-- A flat curve without normals on the given control points, both end widths
equal to `w`. -/
def flatCommon (cp : CP4) (w : ℚ) : CurveCommon :=
  CurveCommon.ctor exactMath cp w w CurveType.Flat none

/-- The whole straight curve, width `1/5`. -/
def straightSegment : Curve := ⟨false, flatCommon straightCP (1 / 5), 0, 1⟩

/-- The whole straight curve with both end widths zero. -/
def zeroWidthSegment : Curve := ⟨false, flatCommon straightCP 0, 0, 1⟩

/-- The whole straight curve with both end widths `-2`, which `CreateCurve`
takes as it takes any other width. -/
def negativeWidthSegment : Curve := ⟨false, flatCommon straightCP (-2), 0, 1⟩

/-- The ray of ray space: origin at zero, unit direction along `+z`,
`tMax = 10`. -/
def axisRay : Ray := ⟨⟨0, 0, 0⟩, ⟨0, 0, 1⟩, 10, 0⟩

/-- Ray-space control points of a straight segment through the ray origin, in
the plane `z = 0`. -/
def throughOriginCP : CP4 := ⟨⟨-1, 0, 0⟩, ⟨-1 / 3, 0, 0⟩, ⟨1 / 3, 0, 0⟩, ⟨1, 0, 0⟩⟩

/-- Ray-space control points of a shallow arch at depth `z = 1`: the chord
`cp[0]-cp[3]` runs at distance `13/25` from the ray, the curve itself comes as
close as `49/100`. Its second differences are `1/25`, for which the depth
heuristic of `Curve::Intersect` gives `maxDepth = 0` at width `1`. -/
def shallowArchCP : CP4 :=
  ⟨⟨-3, -13 / 25, 1⟩, ⟨-1, -12 / 25, 1⟩, ⟨1, -12 / 25, 1⟩, ⟨3, -13 / 25, 1⟩⟩

/-- Ray-space control points of a straight segment that crosses the ray at
depth `z = 1`. -/
def straightRayCP : CP4 := ⟨⟨-1, 0, 1⟩, ⟨-1 / 3, 0, 1⟩, ⟨1 / 3, 0, 1⟩, ⟨1, 0, 1⟩⟩

/-- The hit that the straight segment `straightRayCP` of width `1` gives. -/
def straightHit : Hit :=
  { tHit := 1, p := ⟨0, 0, 1⟩, pError := ⟨2, 2, 2⟩, uv := ⟨1 / 2, 1 / 2⟩, wo := ⟨0, 0, -1⟩,
    dpdu := EvalBezierDeriv straightRayCP (1 / 2), time := 0 }

/-- Ray-space control points of a hairpin: the curve leaves at depth `z = 5`,
turns and comes back at depth `z = 1`, and both arms cross the ray. -/
def hairpinCP : CP4 := ⟨⟨-1, 0, 5⟩, ⟨3, 0, 5⟩, ⟨3, 0, 1⟩, ⟨-1, 0, 1⟩⟩

/-- Ray-space control points of a curve that starts through the ray and turns
back over its own start, so that the chord `cp[0]-cp[3]` points against the
start tangent. -/
def turnBackCP : CP4 := ⟨⟨-1, 0, 1⟩, ⟨2, 0, 1⟩, ⟨0, 4, 1⟩, ⟨-2, 1, 1⟩⟩

/-- Ray-space control points of a curve that bulges away from the ray. -/
def bulgeCP : CP4 := ⟨⟨1, 1, 1⟩, ⟨3, 0, 1⟩, ⟨3, 0, 1⟩, ⟨1, -1, 1⟩⟩

/-! ## Instrumented recursion, the variant without cull, the depth heuristic -/

/-- One call of `recursiveIntersect`: its control points, parameter interval
and `depth` argument, and the nesting level of its frame (1 for the root). -/
structure Call where
  cp : CP4
  u0 : ℚ
  u1 : ℚ
  depth : Nat
  level : Nat
deriving DecidableEq

/-- Method `Curve::recursiveIntersect` (curve.cpp:161-268) together with the
record of the calls it makes, in the order in which they are entered. The
argument `level` is the nesting level of the frame of this call. -/
def recursiveIntersectTrace (M : FloatMath) (common : CurveCommon) (ray : Ray) :
    CP4 → ℚ → ℚ → Nat → Nat → Option Hit × List Call
  | cp, u0, u1, 0, level =>
    if cullOverlaps M common ray cp u0 u1 = false then (none, [⟨cp, u0, u1, 0, level⟩])
    else (leafIntersect M common ray cp u0 u1, [⟨cp, u0, u1, 0, level⟩])
  | cp, u0, u1, depth + 1, level =>
    if cullOverlaps M common ray cp u0 u1 = false then
      (none, [⟨cp, u0, u1, depth + 1, level⟩])
    else
      let umid := (1 / 2) * (u0 + u1)
      let cpSplit := SubdivideBezier cp
      let left := recursiveIntersectTrace M common ray cpSplit.lo u0 umid depth (level + 1)
      match left.1 with
      | some h => (some h, ⟨cp, u0, u1, depth + 1, level⟩ :: left.2)
      | none =>
        let right := recursiveIntersectTrace M common ray cpSplit.hi umid u1 depth (level + 1)
        (right.1, ⟨cp, u0, u1, depth + 1, level⟩ :: (left.2 ++ right.2))

/-- The variant of `Curve::recursiveIntersect` without lines 165-174: no
bounding-box test and no early `return false` at any level. -/
def recursiveIntersectNoCull (M : FloatMath) (common : CurveCommon) (ray : Ray) :
    CP4 → ℚ → ℚ → Nat → Option Hit
  | cp, u0, u1, 0 => leafIntersect M common ray cp u0 u1
  | cp, u0, u1, depth + 1 =>
    let umid := (1 / 2) * (u0 + u1)
    let cpSplit := SubdivideBezier cp
    match recursiveIntersectNoCull M common ray cpSplit.lo u0 umid depth with
    | some h => some h
    | none => recursiveIntersectNoCull M common ray cpSplit.hi umid u1 depth

/-- The measure `L0` of `Curve::Intersect` (curve.cpp:145-149): the largest
absolute second difference of the control points in `x` and `y`, the loop
over `i = 0, 1` unrolled. -/
def secondDifferenceL0 (cp : CP4) : ℚ :=
  let L0 : ℚ := 0
  let L0 := max L0 (max |cp.p0.x - 2 * cp.p1.x + cp.p2.x| |cp.p0.y - 2 * cp.p1.y + cp.p2.y|)
  let L0 := max L0 (max |cp.p1.x - 2 * cp.p2.x + cp.p3.x| |cp.p1.y - 2 * cp.p2.y + cp.p3.y|)
  L0

/-- Modelled from the spec: `Clamp` of `core/pbrt.h` on `int`. -/
def ClampInt (val low high : Int) : Int :=
  if val < low then low else if val > high then high else val

/-- The refinement depth `maxDepth` of `Curve::Intersect` (curve.cpp:144-156)
for ray-space control points `cp`. The calls `std::log` and `std::round` are
arguments; the conversion `(int)` of the rounded value is the argument
`round` itself, which returns the integer. -/
def refinementDepth (log : ℚ → ℚ) (round : ℚ → Int) (common : CurveCommon) (cp : CP4) : Int :=
  let L0 := secondDifferenceL0 cp
  let eps := max common.width0 common.width1 * (1 / 20)
  let fr0 := log (141421356237 / 100000000000 * 12 * L0 / (8 * eps)) * (7213475108 / 10000000000)
  let r0 := round fr0
  ClampInt r0 0 10

/-- Method `Curve::Intersect` (curve.cpp:123-159) on a ray already in object
space. The change of frame `objectToRay`, built in the source by
`CoordinateSystem` and `LookAt`, is an argument, as are `std::log` and
`std::round`. -/
def Curve.Intersect (M : FloatMath) (log : ℚ → ℚ) (round : ℚ → Int)
    (objectToRay : Point3f → Point3f) (c : Curve) (ray : Ray) : Option Hit :=
  let cpObj := subrangeCP c.common.cpObj c.uMin c.uMax
  let cp : CP4 := ⟨objectToRay cpObj.p0, objectToRay cpObj.p1, objectToRay cpObj.p2,
    objectToRay cpObj.p3⟩
  let maxDepth := refinementDepth log round c.common cp
  recursiveIntersect M c.common ray cp c.uMin c.uMax maxDepth.toNat

/-- The factor by which the leaf scales the width of a ribbon (curve.cpp:
221-226): `AbsDot(nHit, -ray.d / rayLength)` with `nHit` interpolated between
the two normals. -/
def ribbonScale (M : FloatMath) (common : CurveCommon) (ray : Ray) (u : ℚ) : ℚ :=
  let rayLength := Length M ray.d
  let sin0 := M.sin ((1 - u) * common.normalAngle) * common.invSinNormalAngle
  let sin1 := M.sin (u * common.normalAngle) * common.invSinNormalAngle
  let nHit := Point3f.add (Point3f.smul sin0 common.n0) (Point3f.smul sin1 common.n1)
  AbsDot nHit (Point3f.sdiv (Point3f.neg ray.d) rayLength)

/-! ## The factory `CreateCurveShape` -/

/-- Modelled from the spec: the parameters that `CreateCurveShape` looks up in
its `ParamSet` (`core/paramset.h`), each `none` when the scene file does not
give it: `width`, `width0`, `width1`, `P`, `type`, `N` and `splitdepth`. -/
structure ParamSet where
  width : Option ℚ
  width0 : Option ℚ
  width1 : Option ℚ
  P : Option (List Point3f)
  type : Option String
  N : Option (List Normal3f)
  splitdepth : Option ℚ

/-- The conversion of a `Float` to `int` in `int sd = ...` (curve.cpp:337):
the fractional part is dropped. -/
def floatToInt (q : ℚ) : Int := if 0 ≤ q then ⌊q⌋ else ⌈q⌉

/-- The resolution of the `type` string (curve.cpp:309-320). The last branch
is the one that reports an unknown curve type. -/
def resolveCurveType (curveType : String) : CurveType :=
  if curveType = "flat" then CurveType.Flat
  else if curveType = "ribbon" then CurveType.Ribbon
  else if curveType = "cylinder" then CurveType.Cylinder
  else CurveType.Cylinder

/-- Function `CreateCurveShape` (curve.cpp:291-347). An absent `P` counts as
zero control points. The pointer `n` is `none` when null; the first `match`
is the block of lines 323-335, whose result `none` stands for its early
`return` of an empty vector. -/
def CreateCurveShape (M : FloatMath) (reverseOrientation : Bool) (params : ParamSet) :
    Option (List Curve) :=
  let width := params.width.getD 1
  let width0 := params.width0.getD width
  let width1 := params.width1.getD width
  let cp := params.P.getD []
  let ncp := cp.length
  if ncp ≠ 4 then some []
  else
    let type := resolveCurveType (params.type.getD ("flat"))
    let checked : Option (Option (List Normal3f)) :=
      match params.N with
      | none => some none
      | some l =>
        if type ≠ CurveType.Ribbon then some none
        else if l.length ≠ 2 then none
        else some (some l)
    match checked with
    | none => some []
    | some n =>
      let sd := floatToInt (params.splitdepth.getD 2)
      if type = CurveType.Ribbon ∧ n = none then some []
      else
        CreateCurve M reverseOrientation
          ⟨cp.getD 0 ⟨0, 0, 0⟩, cp.getD 1 ⟨0, 0, 0⟩, cp.getD 2 ⟨0, 0, 0⟩, cp.getD 3 ⟨0, 0, 0⟩⟩
          width0 width1 type
          (n.map fun l => (l.getD 0 ⟨0, 0, 0⟩, l.getD 1 ⟨0, 0, 0⟩)) sd

/-- The rejection of a parameter set in the words of the specification: the
number of control points given in `P` is not 4, or the resolved type is
`Ribbon` and `N` is absent or does not hold exactly 2 normals. -/
def paramsRejected (params : ParamSet) : Prop :=
  (params.P.getD []).length ≠ 4 ∨
  (resolveCurveType (params.type.getD ("flat")) = CurveType.Ribbon ∧
    (params.N = none ∨ ∃ l, params.N = some l ∧ l.length ≠ 2))

/-- The arguments with which `CreateCurveShape` calls `CreateCurve` for a
parameter set that it does not reject. -/
def createCurveCall (M : FloatMath) (reverseOrientation : Bool) (params : ParamSet) :
    Option (List Curve) :=
  let cp := params.P.getD []
  let type := resolveCurveType (params.type.getD ("flat"))
  CreateCurve M reverseOrientation
    ⟨cp.getD 0 ⟨0, 0, 0⟩, cp.getD 1 ⟨0, 0, 0⟩, cp.getD 2 ⟨0, 0, 0⟩, cp.getD 3 ⟨0, 0, 0⟩⟩
    (params.width0.getD (params.width.getD 1)) (params.width1.getD (params.width.getD 1)) type
    (if type = CurveType.Ribbon then
      params.N.map fun l => (l.getD 0 ⟨0, 0, 0⟩, l.getD 1 ⟨0, 0, 0⟩)
    else none)
    (floatToInt (params.splitdepth.getD 2))

/-- A library record for concrete ribbons: the rational square root, the
Taylor polynomial of degree five for the sine, and for the arc cosine
`11/7 - x - x^3/6`, cut to `0` from `1` on. They are exact at the arguments
that matter below: `sqrt 1 = 1`, `acos 1 = 0`, `sin 0 = 0`. -/
def ribbonMath : FloatMath :=
  { sqrt := Rat.sqrt
    sin := fun x => x - x ^ 3 / 6 + x ^ 5 / 120
    acos := fun x => if 1 ≤ x then 0 else 11 / 7 - x - x ^ 3 / 6 }

/-- The ribbon of the spec's scenario 4: the straight curve of width `1/5`
with the same normal `(0,1,0)` at both ends. -/
def sameNormalCommon : CurveCommon :=
  CurveCommon.ctor ribbonMath straightCP (1 / 5) (1 / 5) CurveType.Ribbon
    (some (⟨0, 1, 0⟩, ⟨0, 1, 0⟩))

/-- A ray along the common normal of `sameNormalCommon`, seen from the side
the normal points to: direction `(0, -1, 0)`. -/
def alongNormalRay : Ray := ⟨⟨3 / 2, 1, 0⟩, ⟨0, -1, 0⟩, 10, 0⟩

/-- The parameter set of the spec's scenario 6 with only three points in `P`. -/
def threePointParams : ParamSet :=
  { width := none, width0 := none, width1 := none,
    P := some [⟨0, 0, 0⟩, ⟨1, 0, 0⟩, ⟨2, 0, 0⟩],
    type := none, N := none, splitdepth := none }

/-- The parameter set of the spec's scenario 6 with type `ribbon` and no `N`. -/
def ribbonNoNormalParams : ParamSet :=
  { width := none, width0 := none, width1 := none,
    P := some [⟨0, 0, 0⟩, ⟨1, 0, 0⟩, ⟨2, 0, 0⟩, ⟨3, 0, 0⟩],
    type := some ("ribbon"), N := none, splitdepth := none }

/-- A parameter set with four points, the unknown type `tube` and one normal
in `N`. -/
def tubeParams : ParamSet :=
  { width := none, width0 := none, width1 := none,
    P := some [⟨0, 0, 0⟩, ⟨1, 0, 0⟩, ⟨2, 0, 0⟩, ⟨3, 0, 0⟩],
    type := some ("tube"), N := some [⟨0, 1, 0⟩], splitdepth := none }

end Pbrt

namespace Pbrt

/-! ## Bézier kernel -/

/-- Two points are equal when their coordinates are. -/
theorem Point3f.ext_xyz {a b : Point3f} (hx : a.x = b.x) (hy : a.y = b.y)
    (hz : a.z = b.z) : a = b := by
  obtain ⟨ax, ay, az⟩ := a
  obtain ⟨bx, bY, bz⟩ := b
  simp only [Point3f.mk.injEq]
  exact ⟨hx, hy, hz⟩

/-- C1: the cubic whose control points are the four blossoms
`B(uMin,uMin,uMin)`, `B(uMin,uMin,uMax)`, `B(uMin,uMax,uMax)`,
`B(uMax,uMax,uMax)` takes at `s` the value of the original cubic at
`lerp(s, uMin, uMax)`, for every `cp`, `uMin`, `uMax` and `s`. -/
theorem blossom_subrange_eval (cp : CP4) (uMin uMax s : ℚ) :
    EvalBezier (subrangeCP cp uMin uMax) s = EvalBezier cp (Lerp s uMin uMax) := by
  apply Point3f.ext_xyz <;>
    simp only [EvalBezier, subrangeCP, BlossomBezier, Lerp3, Lerp, Point3f.add,
      Point3f.smul] <;> ring

/-- C2: with `cpSplit = SubdivideBezier(cp)`, the left child `cpSplit[0..3]`
at `t` is the parent at `t/2` and the right child `cpSplit[3..6]` at `t` is
the parent at `0.5 + t/2`, for every `cp` and `t`. -/
theorem subdivide_eval (cp : CP4) (t : ℚ) :
    EvalBezier (SubdivideBezier cp).lo t = EvalBezier cp (t / 2) ∧
    EvalBezier (SubdivideBezier cp).hi t = EvalBezier cp (1 / 2 + t / 2) := by
  constructor <;> apply Point3f.ext_xyz <;>
    simp only [EvalBezier, SubdivideBezier, CP7.lo, CP7.hi, Lerp3, Point3f.add,
      Point3f.smul, Point3f.sdiv] <;> ring

/-! ## Convex hull property and `ObjectBound` -/

/-- A lower bound of both ends bounds the interpolation for `t` in `[0,1]`. -/
theorem Lerp_ge {t a b lo : ℚ} (ht0 : 0 ≤ t) (ht1 : t ≤ 1) (ha : lo ≤ a) (hb : lo ≤ b) :
    lo ≤ Lerp t a b := by
  unfold Lerp
  have h1 : 0 ≤ (1 - t) * (a - lo) := mul_nonneg (by linarith) (by linarith)
  have h2 : 0 ≤ t * (b - lo) := mul_nonneg ht0 (by linarith)
  nlinarith

/-- An upper bound of both ends bounds the interpolation for `t` in `[0,1]`. -/
theorem Lerp_le {t a b hi : ℚ} (ht0 : 0 ≤ t) (ht1 : t ≤ 1) (ha : a ≤ hi) (hb : b ≤ hi) :
    Lerp t a b ≤ hi := by
  unfold Lerp
  have h1 : 0 ≤ (1 - t) * (hi - a) := mul_nonneg (by linarith) (by linarith)
  have h2 : 0 ≤ t * (hi - b) := mul_nonneg ht0 (by linarith)
  nlinarith

/-- The width at the midpoint of an interval is the mean of the end widths. -/
theorem Lerp_mid (u0 u1 a b : ℚ) :
    Lerp ((1 / 2) * (u0 + u1)) a b = (Lerp u0 a b + Lerp u1 a b) / 2 := by
  unfold Lerp; ring

/-- The `x` coordinate of `EvalBezier` is the scalar cubic of the `x`
coordinates. -/
theorem EvalBezier_x (cp : CP4) (t : ℚ) :
    (EvalBezier cp t).x = evalCoord t cp.p0.x cp.p1.x cp.p2.x cp.p3.x := rfl

/-- The `y` coordinate of `EvalBezier` is the scalar cubic of the `y`
coordinates. -/
theorem EvalBezier_y (cp : CP4) (t : ℚ) :
    (EvalBezier cp t).y = evalCoord t cp.p0.y cp.p1.y cp.p2.y cp.p3.y := rfl

/-- The `z` coordinate of `EvalBezier` is the scalar cubic of the `z`
coordinates. -/
theorem EvalBezier_z (cp : CP4) (t : ℚ) :
    (EvalBezier cp t).z = evalCoord t cp.p0.z cp.p1.z cp.p2.z cp.p3.z := rfl

/-- A lower bound of the four control values bounds the cubic on `[0,1]`. -/
theorem evalCoord_ge {t a b c d lo : ℚ} (ht0 : 0 ≤ t) (ht1 : t ≤ 1)
    (ha : lo ≤ a) (hb : lo ≤ b) (hc : lo ≤ c) (hd : lo ≤ d) : lo ≤ evalCoord t a b c d := by
  unfold evalCoord
  have hab := Lerp_ge ht0 ht1 ha hb
  have hbc := Lerp_ge ht0 ht1 hb hc
  have hcd := Lerp_ge ht0 ht1 hc hd
  exact Lerp_ge ht0 ht1 (Lerp_ge ht0 ht1 hab hbc) (Lerp_ge ht0 ht1 hbc hcd)

/-- An upper bound of the four control values bounds the cubic on `[0,1]`. -/
theorem evalCoord_le {t a b c d hi : ℚ} (ht0 : 0 ≤ t) (ht1 : t ≤ 1)
    (ha : a ≤ hi) (hb : b ≤ hi) (hc : c ≤ hi) (hd : d ≤ hi) : evalCoord t a b c d ≤ hi := by
  unfold evalCoord
  have hab := Lerp_le ht0 ht1 ha hb
  have hbc := Lerp_le ht0 ht1 hb hc
  have hcd := Lerp_le ht0 ht1 hc hd
  exact Lerp_le ht0 ht1 (Lerp_le ht0 ht1 hab hbc) (Lerp_le ht0 ht1 hbc hcd)

/-- The lower corner of `Union(Bounds(a,b), Bounds(c,d))` is below each of the
four values. -/
theorem hull_min_le (a b c d : ℚ) :
    min (min a b) (min c d) ≤ a ∧ min (min a b) (min c d) ≤ b ∧
    min (min a b) (min c d) ≤ c ∧ min (min a b) (min c d) ≤ d := by
  have hab := min_le_left (min a b) (min c d)
  have hcd := min_le_right (min a b) (min c d)
  exact ⟨hab.trans (min_le_left a b), hab.trans (min_le_right a b),
    hcd.trans (min_le_left c d), hcd.trans (min_le_right c d)⟩

/-- The upper corner of `Union(Bounds(a,b), Bounds(c,d))` is above each of the
four values. -/
theorem le_hull_max (a b c d : ℚ) :
    a ≤ max (max a b) (max c d) ∧ b ≤ max (max a b) (max c d) ∧
    c ≤ max (max a b) (max c d) ∧ d ≤ max (max a b) (max c d) := by
  have hab := le_max_left (max a b) (max c d)
  have hcd := le_max_right (max a b) (max c d)
  exact ⟨(le_max_left a b).trans hab, (le_max_right a b).trans hab,
    (le_max_left c d).trans hcd, (le_max_right c d).trans hcd⟩

/-- Each of the four values lies in the hull interval. -/
theorem hull4_self (a b c d : ℚ) :
    (min (min a b) (min c d) ≤ a ∧ a ≤ max (max a b) (max c d)) ∧
    (min (min a b) (min c d) ≤ b ∧ b ≤ max (max a b) (max c d)) ∧
    (min (min a b) (min c d) ≤ c ∧ c ≤ max (max a b) (max c d)) ∧
    (min (min a b) (min c d) ≤ d ∧ d ≤ max (max a b) (max c d)) := by
  obtain ⟨h1, h2, h3, h4⟩ := hull_min_le a b c d
  obtain ⟨k1, k2, k3, k4⟩ := le_hull_max a b c d
  exact ⟨⟨h1, k1⟩, ⟨h2, k2⟩, ⟨h3, k3⟩, ⟨h4, k4⟩⟩

/-- The cubic stays in the hull interval of its control values on `[0,1]`. -/
theorem evalCoord_mem_hull {t a b c d : ℚ} (ht0 : 0 ≤ t) (ht1 : t ≤ 1) :
    min (min a b) (min c d) ≤ evalCoord t a b c d ∧
    evalCoord t a b c d ≤ max (max a b) (max c d) := by
  obtain ⟨h1, h2, h3, h4⟩ := hull_min_le a b c d
  obtain ⟨k1, k2, k3, k4⟩ := le_hull_max a b c d
  exact ⟨evalCoord_ge ht0 ht1 h1 h2 h3 h4, evalCoord_le ht0 ht1 k1 k2 k3 k4⟩

/-- A coordinate within `r` of a point of `[lo, hi]` lies in the interval that
`Expand` builds from `lo - delta` and `hi + delta`, when `r ≤ delta`. -/
theorem expand_coord {lo hi p q r delta : ℚ} (hlo : lo ≤ p) (hhi : p ≤ hi)
    (hq : |q - p| ≤ r) (hr : r ≤ delta) :
    min (lo - delta) (hi + delta) ≤ q ∧ q ≤ max (lo - delta) (hi + delta) := by
  have := abs_le.mp hq
  constructor
  · exact le_trans (min_le_left _ _) (by linarith)
  · exact le_trans (by linarith) (le_max_right _ _)

/-- A point of `[lo, hi]` lies strictly inside the interval that `Expand`
builds from `lo - delta` and `hi + delta`, when `delta` is positive. -/
theorem expand_coord_strict {lo hi p delta : ℚ} (hlo : lo ≤ p) (hhi : p ≤ hi)
    (hd : 0 < delta) :
    min (lo - delta) (hi + delta) < p ∧ p < max (lo - delta) (hi + delta) := by
  constructor
  · exact lt_of_le_of_lt (min_le_left _ _) (by linarith)
  · exact lt_of_lt_of_le (by linarith) (le_max_right _ _)

/-- Three numbers whose squares sum to at most `r ^ 2` are each at most `r`
in absolute value. -/
theorem abs_le_of_sq_sum_le {a b c r : ℚ} (hr : 0 ≤ r) (h : a * a + b * b + c * c ≤ r ^ 2) :
    |a| ≤ r ∧ |b| ≤ r ∧ |c| ≤ r := by
  refine ⟨abs_le_of_sq_le_sq' ?_ hr |> abs_le.mpr, abs_le_of_sq_le_sq' ?_ hr |> abs_le.mpr,
    abs_le_of_sq_le_sq' ?_ hr |> abs_le.mpr⟩ <;>
    nlinarith [mul_self_nonneg a, mul_self_nonneg b, mul_self_nonneg c]

/-- C3: for a segment with `0 ≤ uMin < uMax ≤ 1` and non-negative endpoint
widths, every `t` in `[0,1]` and every point `q` whose distance from
`EvalBezier(sub-range cp, t)` is at most half the width interpolated at
`u = lerp(t, uMin, uMax)`, the point `q` lies inside the box of
`Curve::ObjectBound`. The distance bound is stated on the squared distance,
the half width being non-negative. -/
theorem objectBound_conservative (c : Curve) (t : ℚ) (q : Point3f)
    (hu0 : 0 ≤ c.uMin) (hu : c.uMin < c.uMax) (hu1 : c.uMax ≤ 1)
    (hw0 : 0 ≤ c.common.width0) (hw1 : 0 ≤ c.common.width1)
    (ht0 : 0 ≤ t) (ht1 : t ≤ 1)
    (hq : DistanceSquared q (EvalBezier (subrangeCP c.common.cpObj c.uMin c.uMax) t) ≤
      ((1 / 2) * Lerp (Lerp t c.uMin c.uMax) c.common.width0 c.common.width1) ^ 2) :
    Inside q c.ObjectBound := by
  set cp := subrangeCP c.common.cpObj c.uMin c.uMax with hcp
  set w := Lerp (Lerp t c.uMin c.uMax) c.common.width0 c.common.width1 with hw
  have hu_lo : 0 ≤ Lerp t c.uMin c.uMax := Lerp_ge ht0 ht1 hu0 (by linarith)
  have hu_hi : Lerp t c.uMin c.uMax ≤ 1 := Lerp_le ht0 ht1 (by linarith) hu1
  have hw_nonneg : 0 ≤ w := Lerp_ge hu_lo hu_hi hw0 hw1
  have hw_eq : w = Lerp t (Lerp c.uMin c.common.width0 c.common.width1)
      (Lerp c.uMax c.common.width0 c.common.width1) := by
    simp only [hw, Lerp]; ring
  have hw_le : w ≤ max (Lerp c.uMin c.common.width0 c.common.width1)
      (Lerp c.uMax c.common.width0 c.common.width1) := by
    rw [hw_eq]; exact Lerp_le ht0 ht1 (le_max_left _ _) (le_max_right _ _)
  have hr : (1 / 2) * w ≤ max (Lerp c.uMin c.common.width0 c.common.width1)
      (Lerp c.uMax c.common.width0 c.common.width1) * (1 / 2) := by linarith
  obtain ⟨hx, hy, hz⟩ := abs_le_of_sq_sum_le (by linarith : 0 ≤ (1 / 2) * w) hq
  have ex := evalCoord_mem_hull (a := cp.p0.x) (b := cp.p1.x) (c := cp.p2.x) (d := cp.p3.x)
    ht0 ht1
  have ey := evalCoord_mem_hull (a := cp.p0.y) (b := cp.p1.y) (c := cp.p2.y) (d := cp.p3.y)
    ht0 ht1
  have ez := evalCoord_mem_hull (a := cp.p0.z) (b := cp.p1.z) (c := cp.p2.z) (d := cp.p3.z)
    ht0 ht1
  rw [← EvalBezier_x] at ex
  rw [← EvalBezier_y] at ey
  rw [← EvalBezier_z] at ez
  exact ⟨expand_coord ex.1 ex.2 hx hr, expand_coord ey.1 ey.2 hy hr,
    expand_coord ez.1 ez.2 hz hr⟩

/-- C3 at a concrete input: the straight curve of width `1/5`, `t = 1/2` and
the point `(3/2, 1/10, 0)` on the rim of the swept surface. -/
theorem objectBound_conservative_witness :
    Inside ⟨3 / 2, 1 / 10, 0⟩ straightSegment.ObjectBound :=
  objectBound_conservative straightSegment (1 / 2) ⟨3 / 2, 1 / 10, 0⟩
    (by decide!) (by decide!) (by decide!) (by decide!) (by decide!) (by decide!)
    (by decide!) (by decide!)

/-- C4 as stated fails: the straight curve with both widths zero has
`0 ≤ uMin < uMax ≤ 1`, and its point at `t = 0`, the control point
`(0,0,0)`, lies on a face of the box of `ObjectBound`, not strictly inside.
With both widths `-2` the box shrinks to `x` in `[1,2]` and the same point is
not in the closed box either. -/
theorem objectBound_not_strict_zero_width :
    (0 ≤ zeroWidthSegment.uMin ∧ zeroWidthSegment.uMin < zeroWidthSegment.uMax ∧
      zeroWidthSegment.uMax ≤ 1) ∧
    ¬ InsideStrict
      (EvalBezier (subrangeCP zeroWidthSegment.common.cpObj zeroWidthSegment.uMin
        zeroWidthSegment.uMax) 0) zeroWidthSegment.ObjectBound ∧
    ¬ Inside
      (EvalBezier (subrangeCP negativeWidthSegment.common.cpObj negativeWidthSegment.uMin
        negativeWidthSegment.uMax) 0) negativeWidthSegment.ObjectBound := by
  decide!

/-- C4 (amended): for every segment and every `t` in `[0,1]`, the point
`EvalBezier(sub-range cp, t)` is strictly inside the box of `ObjectBound`
when the larger of the two interpolated end widths of the sub-range is
positive, and inside the closed box when that width is zero or more. No
restriction on the sub-range is needed. -/
theorem objectBound_contains_curve (c : Curve) (t : ℚ) (ht0 : 0 ≤ t) (ht1 : t ≤ 1) :
    (0 < max (Lerp c.uMin c.common.width0 c.common.width1)
        (Lerp c.uMax c.common.width0 c.common.width1) →
      InsideStrict (EvalBezier (subrangeCP c.common.cpObj c.uMin c.uMax) t) c.ObjectBound) ∧
    (0 ≤ max (Lerp c.uMin c.common.width0 c.common.width1)
        (Lerp c.uMax c.common.width0 c.common.width1) →
      Inside (EvalBezier (subrangeCP c.common.cpObj c.uMin c.uMax) t) c.ObjectBound) := by
  set cp := subrangeCP c.common.cpObj c.uMin c.uMax with hcp
  have ex := evalCoord_mem_hull (a := cp.p0.x) (b := cp.p1.x) (c := cp.p2.x) (d := cp.p3.x)
    ht0 ht1
  have ey := evalCoord_mem_hull (a := cp.p0.y) (b := cp.p1.y) (c := cp.p2.y) (d := cp.p3.y)
    ht0 ht1
  have ez := evalCoord_mem_hull (a := cp.p0.z) (b := cp.p1.z) (c := cp.p2.z) (d := cp.p3.z)
    ht0 ht1
  rw [← EvalBezier_x] at ex
  rw [← EvalBezier_y] at ey
  rw [← EvalBezier_z] at ez
  constructor
  · intro hpos
    have hd : 0 < max (Lerp c.uMin c.common.width0 c.common.width1)
        (Lerp c.uMax c.common.width0 c.common.width1) * (1 / 2) := by linarith
    exact ⟨expand_coord_strict ex.1 ex.2 hd, expand_coord_strict ey.1 ey.2 hd,
      expand_coord_strict ez.1 ez.2 hd⟩
  · intro hnn
    have hd : (0 : ℚ) ≤ max (Lerp c.uMin c.common.width0 c.common.width1)
        (Lerp c.uMax c.common.width0 c.common.width1) * (1 / 2) := by linarith
    have h0 : ∀ x : ℚ, |x - x| ≤ 0 := fun x => by simp
    exact ⟨expand_coord ex.1 ex.2 (h0 _) hd, expand_coord ey.1 ey.2 (h0 _) hd,
      expand_coord ez.1 ez.2 (h0 _) hd⟩

/-- C4 (amended) at a concrete input: the start point of the straight curve of
width `1/5` is strictly inside its box. -/
theorem objectBound_contains_curve_witness :
    InsideStrict (EvalBezier (subrangeCP straightSegment.common.cpObj 0 1) 0)
      straightSegment.ObjectBound :=
  (objectBound_contains_curve straightSegment 0 (by decide!) (by decide!)).1 (by decide!)

/-! ## The recursive intersector -/

/-- The function `Clamp` returns a value of `[lo, hi]` when `lo ≤ hi`. -/
theorem Clamp_mem {v lo hi : ℚ} (h : lo ≤ hi) : lo ≤ Clamp v lo hi ∧ Clamp v lo hi ≤ hi := by
  unfold Clamp
  split_ifs with h1 h2
  · exact ⟨le_refl _, h⟩
  · exact ⟨h, le_refl _⟩
  · exact ⟨not_lt.mp h1, not_lt.mp h2⟩

/-- The depth-0 call: the cull, then the leaf test. -/
theorem recursiveIntersect_zero (M : FloatMath) (common : CurveCommon) (ray : Ray) (cp : CP4)
    (u0 u1 : ℚ) : recursiveIntersect M common ray cp u0 u1 0 =
      if cullOverlaps M common ray cp u0 u1 = false then none
      else leafIntersect M common ray cp u0 u1 := by
  rw [recursiveIntersect]

/-- The call at positive depth: the cull, then the left child, and the right
child when the left one misses. -/
theorem recursiveIntersect_succ (M : FloatMath) (common : CurveCommon) (ray : Ray) (cp : CP4)
    (u0 u1 : ℚ) (depth : Nat) : recursiveIntersect M common ray cp u0 u1 (depth + 1) =
      if cullOverlaps M common ray cp u0 u1 = false then none
      else
        (recursiveIntersect M common ray (SubdivideBezier cp).lo u0 ((1 / 2) * (u0 + u1))
          depth).or
        (recursiveIntersect M common ray (SubdivideBezier cp).hi ((1 / 2) * (u0 + u1)) u1
          depth) := by
  rw [recursiveIntersect]
  split_ifs with h
  · rfl
  · simp only
    cases recursiveIntersect M common ray (SubdivideBezier cp).lo u0 ((1 / 2) * (u0 + u1))
      depth <;> rfl

/-- What a successful leaf test has established about the values it writes. -/
theorem leafIntersect_some {M : FloatMath} {common : CurveCommon} {ray : Ray} {cp : CP4}
    {u0 u1 : ℚ} {h : Hit} (hh : leafIntersect M common ray cp u0 u1 = some h) :
    h.uv.x = Clamp (Lerp (chordParam cp) u0 u1) u0 u1 ∧
      h.tHit = (EvalBezier cp (Clamp (chordParam cp) 0 1)).z / Length M ray.d ∧
      0 ≤ (EvalBezier cp (Clamp (chordParam cp) 0 1)).z ∧
      (EvalBezier cp (Clamp (chordParam cp) 0 1)).z ≤ Length M ray.d * ray.tMax := by
  unfold leafIntersect at hh
  simp only at hh
  split_ifs at hh with h1 h2 h3 h4 h5 <;>
  · refine ⟨?_, ?_, ?_, ?_⟩
    · rw [← Option.some.inj hh]; rfl
    · rw [← Option.some.inj hh]; rfl
    · exact not_lt.mp (fun hlt => h5 (Or.inl hlt))
    · exact not_lt.mp (fun hlt => h5 (Or.inr hlt))

/-- The leaf test misses when one of its two end-cap tangent tests fails. -/
theorem leafIntersect_tangent_miss {M : FloatMath} {common : CurveCommon} {ray : Ray}
    {cp : CP4} {u0 u1 : ℚ}
    (h : Dot2 (startTangent cp) (Point2f.neg (Point2f.ofPoint3 cp.p0)) < 0 ∨
      Dot2 (endTangent cp) (Point2f.ofPoint3 cp.p3) < 0) :
    leafIntersect M common ray cp u0 u1 = none := by
  unfold leafIntersect
  simp only
  rcases h with h | h
  · rw [if_pos h]
  · split_ifs <;> rfl

/-- A hit of the recursion is the hit of the leaf test on one of the leaf
sub-segments. -/
theorem recursiveIntersect_some_leaf (M : FloatMath) (common : CurveCommon) (ray : Ray)
    (depth : Nat) : ∀ (cp : CP4) (u0 u1 : ℚ) (h : Hit),
    recursiveIntersect M common ray cp u0 u1 depth = some h →
    ∃ s ∈ leafSegments depth cp u0 u1,
      leafIntersect M common ray s.1 s.2.1 s.2.2 = some h := by
  induction depth with
  | zero =>
    intro cp u0 u1 h hh
    rw [recursiveIntersect_zero] at hh
    split_ifs at hh
    exact ⟨(cp, u0, u1), by simp [leafSegments], hh⟩
  | succ d ih =>
    intro cp u0 u1 h hh
    rw [recursiveIntersect_succ] at hh
    split_ifs at hh
    cases hl : recursiveIntersect M common ray (SubdivideBezier cp).lo u0
        ((1 / 2) * (u0 + u1)) d with
    | some hL =>
      rw [hl] at hh
      obtain ⟨s, hs, hleaf⟩ := ih _ _ _ _ hl
      refine ⟨s, ?_, ?_⟩
      · simp only [leafSegments, List.mem_append]; exact Or.inl hs
      · rw [hleaf]; exact hh
    | none =>
      rw [hl] at hh
      obtain ⟨s, hs, hleaf⟩ := ih _ _ _ _ hh
      refine ⟨s, ?_, hleaf⟩
      simp only [leafSegments, List.mem_append]; exact Or.inr hs

/-- The parameter intervals of the leaf sub-segments stay inside the interval
of the root. -/
theorem leafSegments_nested (depth : Nat) : ∀ (cp : CP4) (u0 u1 : ℚ), u0 ≤ u1 →
    ∀ s ∈ leafSegments depth cp u0 u1, u0 ≤ s.2.1 ∧ s.2.1 ≤ s.2.2 ∧ s.2.2 ≤ u1 := by
  induction depth with
  | zero =>
    intro cp u0 u1 h s hs
    simp only [leafSegments, List.mem_singleton] at hs
    subst hs
    exact ⟨le_refl _, h, le_refl _⟩
  | succ d ih =>
    intro cp u0 u1 h s hs
    simp only [leafSegments, List.mem_append] at hs
    rcases hs with hs | hs
    · obtain ⟨a, b, c⟩ := ih _ u0 ((1 / 2) * (u0 + u1)) (by linarith) s hs
      exact ⟨a, b, by linarith⟩
    · obtain ⟨a, b, c⟩ := ih _ ((1 / 2) * (u0 + u1)) u1 (by linarith) s hs
      exact ⟨by linarith, b, c⟩

/-- A non-zero direction has positive length when the square root is positive
on positive numbers. -/
theorem length_pos_of_ne_zero {M : FloatMath} (hM : ∀ x : ℚ, 0 < x → 0 < M.sqrt x)
    {d : Vector3f} (hd : d ≠ ⟨0, 0, 0⟩) : 0 < Length M d := by
  unfold Length
  apply hM
  have hne : d.x ≠ 0 ∨ d.y ≠ 0 ∨ d.z ≠ 0 := by
    by_contra hcon
    push_neg at hcon
    apply hd
    cases d
    simp_all
  rcases hne with h | h | h
  · have := mul_self_pos.mpr h
    nlinarith [mul_self_nonneg d.y, mul_self_nonneg d.z]
  · have := mul_self_pos.mpr h
    nlinarith [mul_self_nonneg d.x, mul_self_nonneg d.z]
  · have := mul_self_pos.mpr h
    nlinarith [mul_self_nonneg d.x, mul_self_nonneg d.y]

/-- The rational square root is positive on positive numbers. -/
theorem rat_sqrt_pos (x : ℚ) (hx : 0 < x) : 0 < Rat.sqrt x := by
  unfold Rat.sqrt
  rw [Rat.mkRat_eq_div]
  apply div_pos
  · have h1 : 0 < x.num := Rat.num_pos.mpr hx
    have h2 : 0 < Int.sqrt x.num := by
      unfold Int.sqrt
      have : 0 < x.num.toNat := by omega
      exact_mod_cast Nat.sqrt_pos.mpr this
    exact_mod_cast h2
  · exact_mod_cast Nat.sqrt_pos.mpr x.den_pos

/-- C5 as stated fails: for the straight segment through the ray origin
(control points in the plane `z = 0` of ray space, unit direction, width `1`,
depth `0`) a hit is reported with `tHit = 0`, which is not strictly positive. -/
theorem recursiveIntersect_tHit_zero :
    (recursiveIntersect exactMath (flatCommon throughOriginCP 1) axisRay throughOriginCP
      0 1 0).map (fun h => (h.tHit, decide (0 < h.tHit ∧ h.tHit ≤ axisRay.tMax))) =
      some (0, false) := by
  decide!

/-- C5 (amended): for a ray with non-zero direction (and a square root that is
positive on positive numbers), every control points, interval and depth,
whenever `recursiveIntersect` reports a hit the value written to `*tHit`
satisfies `0 ≤ *tHit ≤ ray.tMax`. -/
theorem recursiveIntersect_tHit_range (M : FloatMath) (common : CurveCommon) (ray : Ray)
    (cp : CP4) (u0 u1 : ℚ) (depth : Nat) (h : Hit)
    (hM : ∀ x : ℚ, 0 < x → 0 < M.sqrt x) (hd : ray.d ≠ ⟨0, 0, 0⟩)
    (hh : recursiveIntersect M common ray cp u0 u1 depth = some h) :
    0 ≤ h.tHit ∧ h.tHit ≤ ray.tMax := by
  have hlen := length_pos_of_ne_zero hM hd
  obtain ⟨s, -, hleaf⟩ := recursiveIntersect_some_leaf M common ray depth cp u0 u1 h hh
  obtain ⟨-, ht, hz0, hz1⟩ := leafIntersect_some hleaf
  rw [ht]
  constructor
  · exact div_nonneg hz0 (le_of_lt hlen)
  · rw [div_le_iff₀ hlen]; linarith

/-- C5 (amended) at a concrete input: the straight segment at depth `z = 1`,
subdivided twice, is hit at `tHit = 1`, within `[0, tMax]`. -/
theorem recursiveIntersect_tHit_range_witness :
    recursiveIntersect exactMath (flatCommon straightRayCP 1) axisRay straightRayCP 0 1 2 =
      some straightHit ∧
    0 ≤ straightHit.tHit ∧ straightHit.tHit ≤ axisRay.tMax :=
  ⟨by decide!,
    recursiveIntersect_tHit_range exactMath (flatCommon straightRayCP 1) axisRay
      straightRayCP 0 1 2 straightHit (fun x hx => rat_sqrt_pos x hx) (by decide!)
      (by decide!)⟩

/-- C6: for every segment with `uMin < uMax` and every depth, whenever
`recursiveIntersect` started with `(u0,u1) = (uMin,uMax)` reports a hit, the
`u` coordinate stored in `uv` satisfies `uMin ≤ u ≤ uMax`. -/
theorem recursiveIntersect_u_range (M : FloatMath) (common : CurveCommon) (ray : Ray)
    (cp : CP4) (uMin uMax : ℚ) (depth : Nat) (h : Hit) (hu : uMin < uMax)
    (hh : recursiveIntersect M common ray cp uMin uMax depth = some h) :
    uMin ≤ h.uv.x ∧ h.uv.x ≤ uMax := by
  obtain ⟨s, hs, hleaf⟩ := recursiveIntersect_some_leaf M common ray depth cp uMin uMax h hh
  obtain ⟨a, b, c⟩ := leafSegments_nested depth cp uMin uMax (le_of_lt hu) s hs
  obtain ⟨hu', -⟩ := leafIntersect_some hleaf
  have := Clamp_mem (v := Lerp (chordParam s.1) s.2.1 s.2.2) b
  rw [hu']
  exact ⟨le_trans a this.1, le_trans this.2 c⟩

/-- C6 at a concrete input: the hit of the straight segment subdivided twice
has its `u` in `[0, 1]`. -/
theorem recursiveIntersect_u_range_witness :
    (0 : ℚ) ≤ straightHit.uv.x ∧ straightHit.uv.x ≤ 1 :=
  recursiveIntersect_u_range exactMath (flatCommon straightRayCP 1) axisRay straightRayCP
    0 1 2 straightHit (by decide!) (by decide!)

/-- C7 at the failing input: for the shallow arch (flat curve, positive widths
`1`, depth `0`) the curve point at `w = 1/2` is at distance `49/100` from the
ray and the hit is accepted, while `v = 0.5 + ptLineDist / hitWidth` is taken
from the chord at distance `13/25`: the stored `v` is `51/50`, above `1`. -/
theorem recursiveIntersect_v_out_of_range :
    (0 < (flatCommon shallowArchCP 1).width0 ∧ 0 < (flatCommon shallowArchCP 1).width1) ∧
    (recursiveIntersect exactMath (flatCommon shallowArchCP 1) axisRay shallowArchCP
      0 1 0).map (fun h => (h.uv.y, decide (0 ≤ h.uv.y ∧ h.uv.y ≤ 1))) =
      some (51 / 50, false) := by
  decide!

/-! ## Order of the leaves and the cull -/

/-- The test `Overlaps` in coordinates. -/
theorem Overlaps_iff (a b : Bounds3f) : Overlaps a b = true ↔
    (b.pMin.x ≤ a.pMax.x ∧ a.pMin.x ≤ b.pMax.x) ∧
    (b.pMin.y ≤ a.pMax.y ∧ a.pMin.y ≤ b.pMax.y) ∧
    (b.pMin.z ≤ a.pMax.z ∧ a.pMin.z ≤ b.pMax.z) := by
  simp only [Overlaps, Bool.and_eq_true, decide_eq_true_eq, ge_iff_le, and_assoc]

/-- An interval that holds the four numbers `a b c d` holds the numbers that
the subdivision at `1/2` makes of them. -/
theorem subdivide_coord_hull {a b c d lo hi : ℚ} (ha : lo ≤ a ∧ a ≤ hi)
    (hb : lo ≤ b ∧ b ≤ hi) (hc : lo ≤ c ∧ c ≤ hi) (hd : lo ≤ d ∧ d ≤ hi) :
    (lo ≤ (a + b) / 2 ∧ (a + b) / 2 ≤ hi) ∧
    (lo ≤ (a + 2 * b + c) / 4 ∧ (a + 2 * b + c) / 4 ≤ hi) ∧
    (lo ≤ (a + 3 * b + 3 * c + d) / 8 ∧ (a + 3 * b + 3 * c + d) / 8 ≤ hi) ∧
    (lo ≤ (b + 2 * c + d) / 4 ∧ (b + 2 * c + d) / 4 ≤ hi) ∧
    (lo ≤ (c + d) / 2 ∧ (c + d) / 2 ≤ hi) := by
  obtain ⟨ha1, ha2⟩ := ha
  obtain ⟨hb1, hb2⟩ := hb
  obtain ⟨hc1, hc2⟩ := hc
  obtain ⟨hd1, hd2⟩ := hd
  refine ⟨⟨?_, ?_⟩, ⟨?_, ?_⟩, ⟨?_, ?_⟩, ⟨?_, ?_⟩, ⟨?_, ?_⟩⟩ <;> linarith

/-- Four numbers of the hull interval of `a b c d` span a hull interval
inside it. -/
theorem hull4_mono {a b c d a' b' c' d' : ℚ}
    (ha : min (min a b) (min c d) ≤ a' ∧ a' ≤ max (max a b) (max c d))
    (hb : min (min a b) (min c d) ≤ b' ∧ b' ≤ max (max a b) (max c d))
    (hc : min (min a b) (min c d) ≤ c' ∧ c' ≤ max (max a b) (max c d))
    (hd : min (min a b) (min c d) ≤ d' ∧ d' ≤ max (max a b) (max c d)) :
    min (min a b) (min c d) ≤ min (min a' b') (min c' d') ∧
    max (max a' b') (max c' d') ≤ max (max a b) (max c d) :=
  ⟨le_min (le_min ha.1 hb.1) (le_min hc.1 hd.1), max_le (max_le ha.2 hb.2) (max_le hc.2 hd.2)⟩

/-- The hull interval of the left child lies in that of the parent. -/
theorem subdivide_lo_hull (a b c d : ℚ) :
    min (min a b) (min c d) ≤
      min (min a ((a + b) / 2)) (min ((a + 2 * b + c) / 4) ((a + 3 * b + 3 * c + d) / 8)) ∧
    max (max a ((a + b) / 2)) (max ((a + 2 * b + c) / 4) ((a + 3 * b + 3 * c + d) / 8)) ≤
      max (max a b) (max c d) := by
  obtain ⟨h1, h2, h3, h4⟩ := hull4_self a b c d
  obtain ⟨s1, s2, s3, -, -⟩ := subdivide_coord_hull h1 h2 h3 h4
  exact hull4_mono h1 s1 s2 s3

/-- The hull interval of the right child lies in that of the parent. -/
theorem subdivide_hi_hull (a b c d : ℚ) :
    min (min a b) (min c d) ≤
      min (min ((a + 3 * b + 3 * c + d) / 8) ((b + 2 * c + d) / 4)) (min ((c + d) / 2) d) ∧
    max (max ((a + 3 * b + 3 * c + d) / 8) ((b + 2 * c + d) / 4)) (max ((c + d) / 2) d) ≤
      max (max a b) (max c d) := by
  obtain ⟨h1, h2, h3, h4⟩ := hull4_self a b c d
  obtain ⟨-, -, s3, s4, s5⟩ := subdivide_coord_hull h1 h2 h3 h4
  exact hull4_mono s3 s4 s5 h4

/-- Two intervals that meet still meet when both are enlarged. -/
theorem interval_overlap_mono {alo ahi blo bhi alo' ahi' blo' bhi' : ℚ}
    (ha : alo' ≤ alo ∧ ahi ≤ ahi') (hb : blo' ≤ blo ∧ bhi ≤ bhi')
    (h : blo ≤ ahi ∧ alo ≤ bhi) : blo' ≤ ahi' ∧ alo' ≤ bhi' :=
  ⟨by linarith [ha.2, hb.1, h.1], by linarith [ha.1, hb.2, h.2]⟩

/-- The side of `originBounds` for the width `m` lies in the side for the
width `n` when `0 ≤ m ≤ n`. -/
theorem origin_interval_mono {m n : ℚ} (hm : 0 ≤ m) (hmn : m ≤ n) :
    min (-(1 / 2) * n) ((1 / 2) * n) ≤ min (-(1 / 2) * m) ((1 / 2) * m) ∧
    max (-(1 / 2) * m) ((1 / 2) * m) ≤ max (-(1 / 2) * n) ((1 / 2) * n) := by
  constructor
  · exact le_min (le_trans (min_le_left _ _) (by linarith))
      (le_trans (min_le_left _ _) (by linarith))
  · exact max_le (le_trans (by linarith) (le_max_right _ _))
      (le_trans (by linarith) (le_max_right _ _))

/-- The width at the midpoint is at most the larger of the two end widths. -/
theorem Lerp_mid_le_max (u0 u1 a b : ℚ) :
    Lerp ((1 / 2) * (u0 + u1)) a b ≤ max (Lerp u0 a b) (Lerp u1 a b) := by
  rw [Lerp_mid]
  rcases le_total (Lerp u0 a b) (Lerp u1 a b) with hle | hle
  · exact le_trans (by linarith) (le_max_right _ _)
  · exact le_trans (by linarith) (le_max_left _ _)

/-- The cull of the left child passes only if the cull of the parent does,
when the interpolated width is non-negative at the start of the interval. -/
theorem cull_lo_mono (M : FloatMath) (common : CurveCommon) (ray : Ray) (cp : CP4)
    (u0 u1 : ℚ) (hw0 : 0 ≤ Lerp u0 common.width0 common.width1)
    (h : cullOverlaps M common ray (SubdivideBezier cp).lo u0 ((1 / 2) * (u0 + u1)) = true) :
    cullOverlaps M common ray cp u0 u1 = true := by
  unfold cullOverlaps at h ⊢
  rw [Overlaps_iff] at h ⊢
  have hm0 : 0 ≤ max (Lerp u0 common.width0 common.width1)
      (Lerp ((1 / 2) * (u0 + u1)) common.width0 common.width1) :=
    le_trans hw0 (le_max_left _ _)
  have hmn : max (Lerp u0 common.width0 common.width1)
      (Lerp ((1 / 2) * (u0 + u1)) common.width0 common.width1) ≤
      max (Lerp u0 common.width0 common.width1) (Lerp u1 common.width0 common.width1) :=
    max_le (le_max_left _ _) (Lerp_mid_le_max u0 u1 common.width0 common.width1)
  have ho := origin_interval_mono hm0 hmn
  obtain ⟨hx, hy, hz⟩ := h
  refine ⟨?_, ?_, ?_⟩
  · exact interval_overlap_mono (subdivide_lo_hull cp.p0.x cp.p1.x cp.p2.x cp.p3.x) ho hx
  · exact interval_overlap_mono (subdivide_lo_hull cp.p0.y cp.p1.y cp.p2.y cp.p3.y) ho hy
  · exact interval_overlap_mono (subdivide_lo_hull cp.p0.z cp.p1.z cp.p2.z cp.p3.z)
      ⟨le_refl _, le_refl _⟩ hz

/-- The cull of the right child passes only if the cull of the parent does,
when the interpolated width is non-negative at the end of the interval. -/
theorem cull_hi_mono (M : FloatMath) (common : CurveCommon) (ray : Ray) (cp : CP4)
    (u0 u1 : ℚ) (hw1 : 0 ≤ Lerp u1 common.width0 common.width1)
    (h : cullOverlaps M common ray (SubdivideBezier cp).hi ((1 / 2) * (u0 + u1)) u1 = true) :
    cullOverlaps M common ray cp u0 u1 = true := by
  unfold cullOverlaps at h ⊢
  rw [Overlaps_iff] at h ⊢
  have hm0 : 0 ≤ max (Lerp ((1 / 2) * (u0 + u1)) common.width0 common.width1)
      (Lerp u1 common.width0 common.width1) := le_trans hw1 (le_max_right _ _)
  have hmn : max (Lerp ((1 / 2) * (u0 + u1)) common.width0 common.width1)
      (Lerp u1 common.width0 common.width1) ≤
      max (Lerp u0 common.width0 common.width1) (Lerp u1 common.width0 common.width1) :=
    max_le (Lerp_mid_le_max u0 u1 common.width0 common.width1) (le_max_right _ _)
  have ho := origin_interval_mono hm0 hmn
  obtain ⟨hx, hy, hz⟩ := h
  refine ⟨?_, ?_, ?_⟩
  · exact interval_overlap_mono (subdivide_hi_hull cp.p0.x cp.p1.x cp.p2.x cp.p3.x) ho hx
  · exact interval_overlap_mono (subdivide_hi_hull cp.p0.y cp.p1.y cp.p2.y cp.p3.y) ho hy
  · exact interval_overlap_mono (subdivide_hi_hull cp.p0.z cp.p1.z cp.p2.z cp.p3.z)
      ⟨le_refl _, le_refl _⟩ hz

/-- A leaf sub-segment passes its own cull only if the root passes its cull. -/
theorem leaf_cull_root (M : FloatMath) (common : CurveCommon) (ray : Ray) (depth : Nat) :
    ∀ (cp : CP4) (u0 u1 : ℚ), 0 ≤ Lerp u0 common.width0 common.width1 →
    0 ≤ Lerp u1 common.width0 common.width1 →
    ∀ s ∈ leafSegments depth cp u0 u1, cullOverlaps M common ray s.1 s.2.1 s.2.2 = true →
    cullOverlaps M common ray cp u0 u1 = true := by
  induction depth with
  | zero =>
    intro cp u0 u1 _ _ s hs hc
    simp only [leafSegments, List.mem_singleton] at hs
    subst hs
    exact hc
  | succ d ih =>
    intro cp u0 u1 hw0 hw1 s hs hc
    have hmid : 0 ≤ Lerp ((1 / 2) * (u0 + u1)) common.width0 common.width1 := by
      rw [Lerp_mid]; linarith
    simp only [leafSegments, List.mem_append] at hs
    rcases hs with hs | hs
    · exact cull_lo_mono M common ray cp u0 u1 hw0 (ih _ _ _ hw0 hmid s hs hc)
    · exact cull_hi_mono M common ray cp u0 u1 hw1 (ih _ _ _ hmid hw1 s hs hc)

/-- C8 as stated fails: for the hairpin (flat curve of width `2`, depth `3`)
the recursion reports the hit of the first leaf, on the far arm, with
`tHit = 45361/9261`, about `4.9`, while the last leaf run on its own reports
the hit on the near arm with `tHit = 10205/9261`, about `1.1`. -/
theorem recursiveIntersect_not_nearest :
    (recursiveIntersect exactMath (flatCommon hairpinCP 2) axisRay hairpinCP 0 1 3).map
      Hit.tHit = some (45361 / 9261) ∧
    ((leafSegments 3 hairpinCP 0 1).map fun s =>
      (recursiveIntersect exactMath (flatCommon hairpinCP 2) axisRay s.1 s.2.1 s.2.2 0).map
        Hit.tHit) =
      [some (45361 / 9261), none, none, none, none, none, none, some (10205 / 9261)] ∧
    ¬ ((45361 / 9261 : ℚ) ≤ 10205 / 9261) := by
  decide!

/-- C8 (amended): when the interpolated width is non-negative at both ends of
the interval (as it is for non-negative endpoint widths and `u0`, `u1` in
`[0,1]`), `recursiveIntersect` at depth `d` returns what the first leaf
sub-segment, in left-to-right order, whose own depth-0 call reports a hit
returns, and a miss when no leaf does. The order is that of the curve
parameter, not of the distance along the ray. -/
theorem recursiveIntersect_first_leaf (M : FloatMath) (common : CurveCommon) (ray : Ray)
    (cp : CP4) (u0 u1 : ℚ) (depth : Nat)
    (hw0 : 0 ≤ Lerp u0 common.width0 common.width1)
    (hw1 : 0 ≤ Lerp u1 common.width0 common.width1) :
    recursiveIntersect M common ray cp u0 u1 depth =
      (leafSegments depth cp u0 u1).findSome?
        (fun s => recursiveIntersect M common ray s.1 s.2.1 s.2.2 0) := by
  induction depth generalizing cp u0 u1 with
  | zero =>
    simp only [leafSegments, List.findSome?]
    cases recursiveIntersect M common ray cp u0 u1 0 <;> rfl
  | succ d ih =>
    have hmid : 0 ≤ Lerp ((1 / 2) * (u0 + u1)) common.width0 common.width1 := by
      rw [Lerp_mid]; linarith
    rw [recursiveIntersect_succ]
    split_ifs with hc
    · symm
      rw [List.findSome?_eq_none_iff]
      intro s hs
      rw [recursiveIntersect_zero]
      have : cullOverlaps M common ray s.1 s.2.1 s.2.2 = false := by
        by_contra hne
        have ht : cullOverlaps M common ray s.1 s.2.1 s.2.2 = true := by
          simpa using hne
        have := leaf_cull_root M common ray (d + 1) cp u0 u1 hw0 hw1 s hs ht
        rw [hc] at this
        exact Bool.noConfusion this
      simp [this]
    · simp only [leafSegments, List.findSome?_append]
      rw [ih _ _ _ hw0 hmid, ih _ _ _ hmid hw1]

/-- C8 (amended) at a concrete input: the hairpin of width `2` at depth `3`. -/
theorem recursiveIntersect_first_leaf_witness :
    recursiveIntersect exactMath (flatCommon hairpinCP 2) axisRay hairpinCP 0 1 3 =
      (leafSegments 3 hairpinCP 0 1).findSome?
        (fun s => recursiveIntersect exactMath (flatCommon hairpinCP 2) axisRay s.1 s.2.1
          s.2.2 0) :=
  recursiveIntersect_first_leaf exactMath (flatCommon hairpinCP 2) axisRay hairpinCP 0 1 3
    (by decide!) (by decide!)

/-- C9 as stated fails: for the curve that turns back over its start, both
end-cap tangent tests fail on the control points handed in, and yet a hit is
reported at depth `1` and at depth `4`, where the tests run on the control
points of the children. -/
theorem recursiveIntersect_tangent_tests_root :
    Dot2 (startTangent turnBackCP) (Point2f.neg (Point2f.ofPoint3 turnBackCP.p0)) < 0 ∧
    Dot2 (endTangent turnBackCP) (Point2f.ofPoint3 turnBackCP.p3) < 0 ∧
    (recursiveIntersect exactMath (flatCommon turnBackCP 1) axisRay turnBackCP 0 1 0).isSome
      = false ∧
    (recursiveIntersect exactMath (flatCommon turnBackCP 1) axisRay turnBackCP 0 1 1).isSome
      = true ∧
    (recursiveIntersect exactMath (flatCommon turnBackCP 1) axisRay turnBackCP 0 1 4).isSome
      = true := by
  decide!

/-- C9 (amended): for every depth, if at every leaf sub-segment of the
subdivision one of the two end-cap tangent tests fails on the control points
of that leaf, `recursiveIntersect` reports no hit. At depth `0` the only leaf
is the segment handed in; at positive depth the tests on the control points
handed in do not decide the result. -/
theorem recursiveIntersect_tangent_miss (M : FloatMath) (common : CurveCommon) (ray : Ray)
    (cp : CP4) (u0 u1 : ℚ) (depth : Nat)
    (hfail : ∀ s ∈ leafSegments depth cp u0 u1,
      Dot2 (startTangent s.1) (Point2f.neg (Point2f.ofPoint3 s.1.p0)) < 0 ∨
      Dot2 (endTangent s.1) (Point2f.ofPoint3 s.1.p3) < 0) :
    recursiveIntersect M common ray cp u0 u1 depth = none := by
  cases hr : recursiveIntersect M common ray cp u0 u1 depth with
  | none => rfl
  | some h =>
    obtain ⟨s, hs, hleaf⟩ := recursiveIntersect_some_leaf M common ray depth cp u0 u1 h hr
    rw [leafIntersect_tangent_miss (hfail s hs)] at hleaf
    exact Option.noConfusion hleaf

/-- C9 (amended) at a concrete input: the curve that bulges away from the ray,
at depth `1`; the start test fails on the left child and the end test on the
right child. -/
theorem recursiveIntersect_tangent_miss_witness :
    recursiveIntersect exactMath (flatCommon bulgeCP 10) axisRay bulgeCP 0 1 1 = none :=
  recursiveIntersect_tangent_miss exactMath (flatCommon bulgeCP 10) axisRay bulgeCP 0 1 1
    (by decide!)

/-! ## `CreateCurve` -/

/-- A power of two up to `2 ^ 30` is its own 32-bit value. -/
theorem wrapInt32_pow (k : Nat) (hk : k ≤ 30) : wrapInt32 (2 ^ k) = 2 ^ k := by
  unfold wrapInt32
  have h1 : (2 : Int) ^ k ≤ 2 ^ 30 := pow_le_pow_right₀ (by norm_num) hk
  have h2 : (0 : Int) < 2 ^ k := by positivity
  rw [Int.emod_eq_of_lt (by linarith) (by norm_num at h1 ⊢; linarith)]
  ring

/-- The shift `1 << k` is `2 ^ k` for `k ≤ 30`. -/
theorem shiftLeftOne_small (k : Nat) (hk : k ≤ 30) :
    shiftLeftOne (k : Int) = some (2 ^ k) := by
  unfold shiftLeftOne
  have : (0 : Int) ≤ k ∧ (k : Int) < 32 := ⟨by positivity, by omega⟩
  rw [if_pos this, Int.toNat_ofNat, wrapInt32_pow k hk]

/-- The vector that the loop of `CreateCurve` builds for `splitDepth ≤ 30`. -/
theorem createCurve_eq (M : FloatMath) (rev : Bool) (c : CP4) (w0 w1 : ℚ)
    (type : CurveType) (norm : Option (Normal3f × Normal3f)) (k : Nat) (hk : k ≤ 30) :
    CreateCurve M rev c w0 w1 type norm (k : Int) =
      some ((List.range (2 ^ k)).map fun (i : Nat) =>
        (⟨rev, CurveCommon.ctor M c w0 w1 type norm, (i : ℚ) / 2 ^ k, ((i : ℚ) + 1) / 2 ^ k⟩ :
          Curve)) := by
  unfold CreateCurve
  simp only [shiftLeftOne_small k hk]
  have hpos : ¬ ((2 : Int) ^ k < 0) := not_lt.mpr (by positivity)
  rw [if_neg hpos]
  have htn : ((2 : Int) ^ k).toNat = 2 ^ k := by
    have : ((2 : Int) ^ k) = ((2 ^ k : Nat) : Int) := by push_cast; rfl
    rw [this, Int.toNat_ofNat]
  rw [htn]
  congr 1
  apply List.map_congr_left
  intro i _
  simp

/-- C10 as stated fails: for `splitDepth = 31` the 32-bit shift `1 << 31` is
`INT_MIN`, `segments.reserve` is handed a negative count and no vector of
`2 ^ 31` segments is returned. -/
theorem createCurve_overflow :
    shiftLeftOne 31 = some (-2147483648) ∧
    CreateCurve exactMath false straightCP 1 1 CurveType.Flat none 31 = none := by
  decide!

/-- C10 (amended): for every `splitDepth` from `0` to `30`, `CreateCurve`
returns exactly `2 ^ splitDepth` segments; segment `i` has
`(uMin, uMax) = (i / n, (i + 1) / n)` with `n = 2 ^ splitDepth`; the first
`uMin` is `0`, the last `uMax` is `1`, each `uMax` is the next `uMin`, every
segment has `0 ≤ uMin < uMax ≤ 1`, and all segments hold the same
`CurveCommon`. -/
theorem createCurve_partition (M : FloatMath) (rev : Bool) (c : CP4) (w0 w1 : ℚ)
    (type : CurveType) (norm : Option (Normal3f × Normal3f)) (k : Nat) (hk : k ≤ 30) :
    ∃ segments : List Curve,
      CreateCurve M rev c w0 w1 type norm (k : Int) = some segments ∧
      segments.length = 2 ^ k ∧
      (∀ i : Nat, i < 2 ^ k → segments[i]? = some
        ⟨rev, CurveCommon.ctor M c w0 w1 type norm, (i : ℚ) / 2 ^ k, ((i : ℚ) + 1) / 2 ^ k⟩) ∧
      segments.head?.map Curve.uMin = some 0 ∧
      segments.getLast?.map Curve.uMax = some 1 ∧
      (∀ (i : Nat) (s t : Curve), segments[i]? = some s → segments[i + 1]? = some t →
        s.uMax = t.uMin) ∧
      (∀ s ∈ segments, 0 ≤ s.uMin ∧ s.uMin < s.uMax ∧ s.uMax ≤ 1 ∧
        s.common = CurveCommon.ctor M c w0 w1 type norm) := by
  have hn : (0 : ℚ) < 2 ^ k := by positivity
  have hidx : ∀ i : Nat, i < 2 ^ k →
      ((List.range (2 ^ k)).map fun (i : Nat) =>
        (⟨rev, CurveCommon.ctor M c w0 w1 type norm, (i : ℚ) / 2 ^ k, ((i : ℚ) + 1) / 2 ^ k⟩ :
          Curve))[i]? = some
        ⟨rev, CurveCommon.ctor M c w0 w1 type norm, (i : ℚ) / 2 ^ k, ((i : ℚ) + 1) / 2 ^ k⟩ := by
    intro i hi
    simp [List.getElem?_map, List.getElem?_range hi]
  refine ⟨_, createCurve_eq M rev c w0 w1 type norm k hk, by simp, hidx, ?_, ?_, ?_, ?_⟩
  · rw [List.head?_eq_getElem?, hidx 0 (by positivity)]
    simp
  · rw [List.getLast?_eq_getElem?]
    simp only [List.length_map, List.length_range]
    have hlast : 2 ^ k - 1 < 2 ^ k := Nat.sub_lt (by positivity) (by norm_num)
    rw [hidx _ hlast]
    simp only [Option.map_some', Option.some.injEq]
    have h1 : 1 ≤ 2 ^ k := Nat.one_le_two_pow
    rw [Nat.cast_sub h1]
    push_cast
    field_simp
  · intro i s t hs ht
    have hi1 : i + 1 < 2 ^ k := by
      by_contra hcon
      rw [List.getElem?_eq_none (by simpa using not_lt.mp hcon)] at ht
      exact Option.noConfusion ht
    rw [hidx i (by omega)] at hs
    rw [hidx (i + 1) hi1] at ht
    rw [← Option.some.inj hs, ← Option.some.inj ht]
    push_cast
    rfl
  · intro s hs
    simp only [List.mem_map, List.mem_range] at hs
    obtain ⟨i, hi, rfl⟩ := hs
    have hiq : ((i : ℚ) + 1) ≤ 2 ^ k := by exact_mod_cast hi
    refine ⟨by positivity, ?_, ?_, rfl⟩
    · exact div_lt_div_of_pos_right (by linarith) hn
    · rw [div_le_one hn]; exact hiq

/-- C10 (amended) at a concrete input: `splitDepth = 2` gives the four
segments `[0,1/4]`, `[1/4,1/2]`, `[1/2,3/4]`, `[3/4,1]`. -/
theorem createCurve_partition_witness :
    ∃ segments : List Curve,
      CreateCurve exactMath false straightCP 1 1 CurveType.Flat none ((2 : Nat) : Int) =
        some segments ∧
      segments.length = 2 ^ 2 ∧
      (∀ i : Nat, i < 2 ^ 2 → segments[i]? = some
        ⟨false, CurveCommon.ctor exactMath straightCP 1 1 CurveType.Flat none,
          (i : ℚ) / 2 ^ 2, ((i : ℚ) + 1) / 2 ^ 2⟩) ∧
      segments.head?.map Curve.uMin = some 0 ∧
      segments.getLast?.map Curve.uMax = some 1 ∧
      (∀ (i : Nat) (s t : Curve), segments[i]? = some s → segments[i + 1]? = some t →
        s.uMax = t.uMin) ∧
      (∀ s ∈ segments, 0 ≤ s.uMin ∧ s.uMin < s.uMax ∧ s.uMax ≤ 1 ∧
        s.common = CurveCommon.ctor exactMath straightCP 1 1 CurveType.Flat none) :=
  createCurve_partition exactMath false straightCP 1 1 CurveType.Flat none 2 (by decide)


/-! ## The record of calls and the recursion invariant -/

/-- The left child of the subdivision at `t` is the parent at `t/2`. -/
theorem EvalBezier_lo (cp : CP4) (t : ℚ) :
    EvalBezier (SubdivideBezier cp).lo t = EvalBezier cp (t / 2) := by
  apply Point3f.ext_xyz <;>
    simp only [EvalBezier, SubdivideBezier, CP7.lo, Lerp3, Point3f.add, Point3f.smul,
      Point3f.sdiv] <;> ring

/-- The right child of the subdivision at `t` is the parent at `1/2 + t/2`. -/
theorem EvalBezier_hi (cp : CP4) (t : ℚ) :
    EvalBezier (SubdivideBezier cp).hi t = EvalBezier cp (1 / 2 + t / 2) := by
  apply Point3f.ext_xyz <;>
    simp only [EvalBezier, SubdivideBezier, CP7.hi, Lerp3, Point3f.add, Point3f.smul,
      Point3f.sdiv] <;> ring

/-- The instrumented recursion returns what `recursiveIntersect` returns. -/
theorem recursiveIntersectTrace_fst (M : FloatMath) (common : CurveCommon) (ray : Ray)
    (depth : Nat) : ∀ (cp : CP4) (u0 u1 : ℚ) (level : Nat),
    (recursiveIntersectTrace M common ray cp u0 u1 depth level).1 =
      recursiveIntersect M common ray cp u0 u1 depth := by
  induction depth with
  | zero =>
    intro cp u0 u1 level
    rw [recursiveIntersect_zero, recursiveIntersectTrace]
    split_ifs <;> rfl
  | succ d ih =>
    intro cp u0 u1 level
    rw [recursiveIntersect_succ, recursiveIntersectTrace]
    split_ifs with hc
    · rfl
    · simp only
      have hl := ih (SubdivideBezier cp).lo u0 ((1 / 2) * (u0 + u1)) (level + 1)
      have hr := ih (SubdivideBezier cp).hi ((1 / 2) * (u0 + u1)) u1 (level + 1)
      cases hres : (recursiveIntersectTrace M common ray (SubdivideBezier cp).lo u0
          ((1 / 2) * (u0 + u1)) d (level + 1)).1 with
      | some h =>
        rw [hres] at hl
        simp only [← hl, Option.or]
      | none =>
        rw [hres] at hl
        simp only [← hl, Option.or, hr]

/-- Membership in the record of calls at positive depth. -/
theorem mem_trace_succ {M : FloatMath} {common : CurveCommon} {ray : Ray} {cp : CP4}
    {u0 u1 : ℚ} {depth level : Nat} {c : Call}
    (hc : c ∈ (recursiveIntersectTrace M common ray cp u0 u1 (depth + 1) level).2) :
    c = ⟨cp, u0, u1, depth + 1, level⟩ ∨
    c ∈ (recursiveIntersectTrace M common ray (SubdivideBezier cp).lo u0
      ((1 / 2) * (u0 + u1)) depth (level + 1)).2 ∨
    c ∈ (recursiveIntersectTrace M common ray (SubdivideBezier cp).hi
      ((1 / 2) * (u0 + u1)) u1 depth (level + 1)).2 := by
  rw [recursiveIntersectTrace] at hc
  split_ifs at hc with hcull
  · left; simpa using hc
  · simp only at hc
    split at hc
    · simp only [List.mem_cons] at hc
      rcases hc with h | h
      · exact Or.inl h
      · exact Or.inr (Or.inl h)
    · simp only [List.mem_cons, List.mem_append] at hc
      rcases hc with h | h | h
      · exact Or.inl h
      · exact Or.inr (Or.inl h)
      · exact Or.inr (Or.inr h)

/-- Membership in the record of calls at depth zero. -/
theorem mem_trace_zero {M : FloatMath} {common : CurveCommon} {ray : Ray} {cp : CP4}
    {u0 u1 : ℚ} {level : Nat} {c : Call}
    (hc : c ∈ (recursiveIntersectTrace M common ray cp u0 u1 0 level).2) :
    c = ⟨cp, u0, u1, 0, level⟩ := by
  rw [recursiveIntersectTrace] at hc
  split_ifs at hc <;> simpa using hc

/-- The invariant of the recursion, carried from a call to the calls below. -/
theorem trace_invariant (M : FloatMath) (common : CurveCommon) (ray : Ray) (cpRoot : CP4)
    (uMin uMax : ℚ) (depth : Nat) : ∀ (cp : CP4) (u0 u1 : ℚ) (level : Nat) (a b : ℚ),
    0 ≤ a → a ≤ b → b ≤ 1 →
    (∀ s, EvalBezier cp s = EvalBezier cpRoot (Lerp s a b)) →
    u0 = Lerp a uMin uMax → u1 = Lerp b uMin uMax →
    ∀ c ∈ (recursiveIntersectTrace M common ray cp u0 u1 depth level).2,
      ∃ a' b' : ℚ, 0 ≤ a' ∧ a' ≤ b' ∧ b' ≤ 1 ∧
        (∀ s, EvalBezier c.cp s = EvalBezier cpRoot (Lerp s a' b')) ∧
        c.u0 = Lerp a' uMin uMax ∧ c.u1 = Lerp b' uMin uMax := by
  induction depth with
  | zero =>
    intro cp u0 u1 level a b ha hab hb hev h0 h1 c hc
    rw [mem_trace_zero hc]
    exact ⟨a, b, ha, hab, hb, hev, h0, h1⟩
  | succ d ih =>
    intro cp u0 u1 level a b ha hab hb hev h0 h1 c hc
    have hmid : (1 / 2) * (u0 + u1) = Lerp ((a + b) / 2) uMin uMax := by
      rw [h0, h1]; unfold Lerp; ring
    rcases mem_trace_succ hc with h | h | h
    · rw [h]
      exact ⟨a, b, ha, hab, hb, hev, h0, h1⟩
    · refine ih _ _ _ _ a ((a + b) / 2) ha (by linarith) (by linarith) ?_ h0 hmid c h
      intro s
      rw [EvalBezier_lo, hev]
      congr 1
      unfold Lerp; ring
    · refine ih _ _ _ _ ((a + b) / 2) b (by linarith) (by linarith) hb ?_ hmid h1 c h
      intro s
      rw [EvalBezier_hi, hev]
      congr 1
      unfold Lerp; ring

/-- C14: every call of `recursiveIntersect` reached from a root call with
control points `cpRoot`, interval `(uMin, uMax)` and depth `d` comes with an
interval `[a, b]` inside `[0, 1]` such that its control points are the
restriction of `cpRoot` to `[a, b]`, `EvalBezier(cp, s) =
EvalBezier(cpRoot, lerp(s, a, b))` for all `s`, and its parameter interval is
`(lerp(a, uMin, uMax), lerp(b, uMin, uMax))`. -/
theorem recursion_invariant (M : FloatMath) (common : CurveCommon) (ray : Ray) (cpRoot : CP4)
    (uMin uMax : ℚ) (d : Nat) (c : Call)
    (hc : c ∈ (recursiveIntersectTrace M common ray cpRoot uMin uMax d 1).2) :
    ∃ a b : ℚ, 0 ≤ a ∧ a ≤ b ∧ b ≤ 1 ∧
      (∀ s, EvalBezier c.cp s = EvalBezier cpRoot (Lerp s a b)) ∧
      c.u0 = Lerp a uMin uMax ∧ c.u1 = Lerp b uMin uMax := by
  refine trace_invariant M common ray cpRoot uMin uMax d cpRoot uMin uMax 1 0 1 (le_refl _)
    (by norm_num) (le_refl _) ?_ ?_ ?_ c hc
  · intro s; congr 1; unfold Lerp; ring
  · unfold Lerp; ring
  · unfold Lerp; ring

/-- Nesting level and remaining depth add up to the same number in every call
of the record. -/
theorem trace_level (M : FloatMath) (common : CurveCommon) (ray : Ray) (depth : Nat) :
    ∀ (cp : CP4) (u0 u1 : ℚ) (level : Nat),
    ∀ c ∈ (recursiveIntersectTrace M common ray cp u0 u1 depth level).2,
      c.level + c.depth = level + depth := by
  induction depth with
  | zero =>
    intro cp u0 u1 level c hc
    rw [mem_trace_zero hc]
  | succ d ih =>
    intro cp u0 u1 level c hc
    rcases mem_trace_succ hc with h | h | h
    · rw [h]
    · have := ih _ _ _ _ c h
      omega
    · have := ih _ _ _ _ c h
      omega

/-- The record of a call of depth `d` holds at most `2 ^ (d + 1) - 1` calls, of
which at most `2 ^ d` have depth zero. -/
theorem trace_size (M : FloatMath) (common : CurveCommon) (ray : Ray) (depth : Nat) :
    ∀ (cp : CP4) (u0 u1 : ℚ) (level : Nat),
    (recursiveIntersectTrace M common ray cp u0 u1 depth level).2.length + 1 ≤ 2 ^ (depth + 1) ∧
    ((recursiveIntersectTrace M common ray cp u0 u1 depth level).2.filter
      (fun c => decide (c.depth = 0))).length ≤ 2 ^ depth := by
  induction depth with
  | zero =>
    intro cp u0 u1 level
    rw [recursiveIntersectTrace]
    split_ifs <;> simp
  | succ d ih =>
    intro cp u0 u1 level
    obtain ⟨hl1, hl2⟩ := ih (SubdivideBezier cp).lo u0 ((1 / 2) * (u0 + u1)) (level + 1)
    obtain ⟨hr1, hr2⟩ := ih (SubdivideBezier cp).hi ((1 / 2) * (u0 + u1)) u1 (level + 1)
    have hp : 2 ^ (d + 1 + 1) = 2 * 2 ^ (d + 1) := by ring
    have hq : 2 ^ (d + 1) = 2 * 2 ^ d := by ring
    have hpos : 0 < 2 ^ d := by positivity
    rw [recursiveIntersectTrace]
    split_ifs with hcull
    · simp only [List.length_singleton, List.filter_cons, List.filter_nil]
      constructor
      · omega
      · simp
    · simp only
      split
      · simp only [List.length_cons, List.filter_cons]
        constructor
        · omega
        · simp only [Nat.add_one_ne_zero, decide_False, Bool.false_eq_true, ↓reduceIte]
          omega
      · simp only [List.length_cons, List.length_append, List.filter_cons, List.filter_append]
        constructor
        · omega
        · simp only [Nat.add_one_ne_zero, decide_False, Bool.false_eq_true, ↓reduceIte,
            List.length_append]
          omega

/-- The function `Clamp` on `int` returns a value of `[lo, hi]` when `lo ≤ hi`. -/
theorem ClampInt_mem {v lo hi : Int} (h : lo ≤ hi) :
    lo ≤ ClampInt v lo hi ∧ ClampInt v lo hi ≤ hi := by
  unfold ClampInt
  split_ifs with h1 h2
  · exact ⟨le_refl _, h⟩
  · exact ⟨h, le_refl _⟩
  · exact ⟨not_lt.mp h1, not_lt.mp h2⟩

/-- C17: the `maxDepth` that `Curve::Intersect` passes on is in `[0, 10]`
whatever `std::log` and `std::round` return; for every depth `d` the recursion
ends with the result of `recursiveIntersect` after a finite record of calls,
of which at most `2 ^ d` are calls of depth zero, where the leaf test runs,
and none is nested deeper than `d + 1`; from `Intersect` these bounds are
`1024` and `11`. -/
theorem recursion_terminates_bounded :
    (∀ (log : ℚ → ℚ) (round : ℚ → Int) (common : CurveCommon) (cp : CP4),
      0 ≤ refinementDepth log round common cp ∧ refinementDepth log round common cp ≤ 10) ∧
    (∀ (M : FloatMath) (common : CurveCommon) (ray : Ray) (cp : CP4) (u0 u1 : ℚ) (d : Nat),
      (recursiveIntersectTrace M common ray cp u0 u1 d 1).1 =
        recursiveIntersect M common ray cp u0 u1 d ∧
      (recursiveIntersectTrace M common ray cp u0 u1 d 1).2.length + 1 ≤ 2 ^ (d + 1) ∧
      ((recursiveIntersectTrace M common ray cp u0 u1 d 1).2.filter
        (fun c => decide (c.depth = 0))).length ≤ 2 ^ d ∧
      (∀ c ∈ (recursiveIntersectTrace M common ray cp u0 u1 d 1).2, c.level ≤ d + 1)) ∧
    (∀ (M : FloatMath) (log : ℚ → ℚ) (round : ℚ → Int) (objectToRay : Point3f → Point3f)
      (c : Curve) (ray : Ray),
      ∃ (cp : CP4) (d : Nat), d ≤ 10 ∧
        Curve.Intersect M log round objectToRay c ray =
          (recursiveIntersectTrace M c.common ray cp c.uMin c.uMax d 1).1 ∧
        ((recursiveIntersectTrace M c.common ray cp c.uMin c.uMax d 1).2.filter
          (fun k => decide (k.depth = 0))).length ≤ 1024 ∧
        (∀ k ∈ (recursiveIntersectTrace M c.common ray cp c.uMin c.uMax d 1).2,
          k.level ≤ 11)) := by
  have hdepth : ∀ (log : ℚ → ℚ) (round : ℚ → Int) (common : CurveCommon) (cp : CP4),
      0 ≤ refinementDepth log round common cp ∧ refinementDepth log round common cp ≤ 10 := by
    intro log round common cp
    exact ClampInt_mem (by norm_num)
  have hlevel : ∀ (M : FloatMath) (common : CurveCommon) (ray : Ray) (cp : CP4) (u0 u1 : ℚ)
      (d : Nat), ∀ c ∈ (recursiveIntersectTrace M common ray cp u0 u1 d 1).2,
      c.level ≤ d + 1 := by
    intro M common ray cp u0 u1 d c hc
    have := trace_level M common ray d cp u0 u1 1 c hc
    omega
  refine ⟨hdepth, ?_, ?_⟩
  · intro M common ray cp u0 u1 d
    exact ⟨recursiveIntersectTrace_fst M common ray d cp u0 u1 1,
      (trace_size M common ray d cp u0 u1 1).1, (trace_size M common ray d cp u0 u1 1).2,
      hlevel M common ray cp u0 u1 d⟩
  · intro M log round objectToRay c ray
    obtain ⟨cp, hcp⟩ : ∃ cp : CP4, cp =
        ⟨objectToRay (subrangeCP c.common.cpObj c.uMin c.uMax).p0,
          objectToRay (subrangeCP c.common.cpObj c.uMin c.uMax).p1,
          objectToRay (subrangeCP c.common.cpObj c.uMin c.uMax).p2,
          objectToRay (subrangeCP c.common.cpObj c.uMin c.uMax).p3⟩ := ⟨_, rfl⟩
    obtain ⟨h0, h10⟩ := hdepth log round c.common cp
    have hn : (refinementDepth log round c.common cp).toNat ≤ 10 := by omega
    refine ⟨cp, (refinementDepth log round c.common cp).toNat, hn, ?_, ?_, ?_⟩
    · rw [recursiveIntersectTrace_fst, hcp]
      rfl
    · refine le_trans (trace_size M c.common ray _ cp c.uMin c.uMax 1).2 ?_
      calc 2 ^ (refinementDepth log round c.common cp).toNat ≤ 2 ^ 10 :=
            Nat.pow_le_pow_right (by norm_num) hn
        _ = 1024 := by norm_num
    · intro k hk
      have := hlevel M c.common ray cp c.uMin c.uMax _ k hk
      omega

/-! ## The curve point behind a hit -/

/-- The width test and the depth test that a successful leaf test has passed,
with the values it writes. -/
theorem leafIntersect_some_tests {M : FloatMath} {common : CurveCommon} {ray : Ray}
    {cp : CP4} {u0 u1 : ℚ} {h : Hit} (hh : leafIntersect M common ray cp u0 u1 = some h) :
    h.uv.x = Clamp (Lerp (chordParam cp) u0 u1) u0 u1 ∧
    h.tHit = (EvalBezier cp (Clamp (chordParam cp) 0 1)).z / Length M ray.d ∧
    (EvalBezier cp (Clamp (chordParam cp) 0 1)).x * (EvalBezier cp (Clamp (chordParam cp) 0 1)).x +
      (EvalBezier cp (Clamp (chordParam cp) 0 1)).y * (EvalBezier cp (Clamp (chordParam cp) 0 1)).y ≤
      hitWidthAt M common ray h.uv.x * hitWidthAt M common ray h.uv.x * (1 / 4) ∧
    0 ≤ (EvalBezier cp (Clamp (chordParam cp) 0 1)).z ∧
    (EvalBezier cp (Clamp (chordParam cp) 0 1)).z ≤ Length M ray.d * ray.tMax := by
  unfold leafIntersect at hh
  simp only at hh
  split_ifs at hh with h1 h2 h3 h4 h5 <;>
  · refine ⟨?_, ?_, ?_, ?_, ?_⟩
    · rw [← Option.some.inj hh]; rfl
    · rw [← Option.some.inj hh]; rfl
    · rw [← Option.some.inj hh]; exact not_lt.mp h4
    · exact not_lt.mp (fun hlt => h5 (Or.inl hlt))
    · exact not_lt.mp (fun hlt => h5 (Or.inr hlt))

/-- The effective width of a ribbon is the interpolated width times the
ribbon factor; for the other types it is the interpolated width. -/
theorem hitWidthAt_eq (M : FloatMath) (common : CurveCommon) (ray : Ray) (u : ℚ) :
    hitWidthAt M common ray u =
      if common.curveType = CurveType.Ribbon then
        Lerp u common.width0 common.width1 * ribbonScale M common ray u
      else Lerp u common.width0 common.width1 := rfl

/-- The absolute effective width is at most the larger end width of an
interval that holds `u`, when the end widths are non-negative and the ribbon
factor is at most 1. -/
theorem abs_hitWidthAt_le (M : FloatMath) (common : CurveCommon) (ray : Ray) (a b u : ℚ)
    (hab : a ≤ b) (hua : a ≤ u) (hub : u ≤ b)
    (hwa : 0 ≤ Lerp a common.width0 common.width1)
    (hwb : 0 ≤ Lerp b common.width0 common.width1)
    (hs : common.curveType = CurveType.Ribbon → ribbonScale M common ray u ≤ 1) :
    |hitWidthAt M common ray u| ≤
      max (Lerp a common.width0 common.width1) (Lerp b common.width0 common.width1) := by
  have hW0 : 0 ≤ Lerp u common.width0 common.width1 ∧ Lerp u common.width0 common.width1 ≤
      max (Lerp a common.width0 common.width1) (Lerp b common.width0 common.width1) := by
    rcases eq_or_lt_of_le hab with heq | hlt
    · have hu : u = a := le_antisymm (by linarith) hua
      rw [hu]
      exact ⟨hwa, le_max_left _ _⟩
    · have hpos : 0 < b - a := by linarith
      have hrep : Lerp u common.width0 common.width1 =
          Lerp ((u - a) / (b - a)) (Lerp a common.width0 common.width1)
            (Lerp b common.width0 common.width1) := by
        unfold Lerp; field_simp; ring
      have t0 : 0 ≤ (u - a) / (b - a) := div_nonneg (by linarith) (le_of_lt hpos)
      have t1 : (u - a) / (b - a) ≤ 1 := by rw [div_le_one hpos]; linarith
      rw [hrep]
      exact ⟨Lerp_ge t0 t1 hwa hwb, Lerp_le t0 t1 (le_max_left _ _) (le_max_right _ _)⟩
  rw [hitWidthAt_eq]
  split_ifs with hr
  · have hs0 : 0 ≤ ribbonScale M common ray u := abs_nonneg _
    rw [abs_of_nonneg (mul_nonneg hW0.1 hs0)]
    calc Lerp u common.width0 common.width1 * ribbonScale M common ray u
        ≤ Lerp u common.width0 common.width1 * 1 :=
          mul_le_mul_of_nonneg_left (hs hr) hW0.1
      _ ≤ _ := by rw [mul_one]; exact hW0.2
  · rw [abs_of_nonneg hW0.1]; exact hW0.2

/-- The cull box test in one coordinate of the plane: a point of the hull
interval within `m/2` of zero makes the two intervals meet. -/
theorem overlap_of_point {lo hi p m : ℚ} (hlo : lo ≤ p) (hhi : p ≤ hi) (hp : |p| ≤ (1 / 2) * m) :
    min (-(1 / 2) * m) ((1 / 2) * m) ≤ hi ∧ lo ≤ max (-(1 / 2) * m) ((1 / 2) * m) := by
  obtain ⟨h1, h2⟩ := abs_le.mp hp
  constructor
  · exact le_trans (min_le_left _ _) (by linarith)
  · exact le_trans (by linarith) (le_max_right _ _)

/-- A leaf test that reports a hit has its segment inside the cull: the curve
point it accepted lies in both boxes. -/
theorem leaf_hit_cull (M : FloatMath) (common : CurveCommon) (ray : Ray) (cp : CP4)
    (a b : ℚ) (h : Hit) (hab : a ≤ b)
    (hwa : 0 ≤ Lerp a common.width0 common.width1)
    (hwb : 0 ≤ Lerp b common.width0 common.width1)
    (hs : common.curveType = CurveType.Ribbon →
      ∀ u, a ≤ u → u ≤ b → ribbonScale M common ray u ≤ 1)
    (hh : leafIntersect M common ray cp a b = some h) :
    cullOverlaps M common ray cp a b = true := by
  obtain ⟨e1, -, e3, e4, e5⟩ := leafIntersect_some_tests hh
  obtain ⟨c0, c1⟩ := Clamp_mem (v := chordParam cp) (by norm_num : (0 : ℚ) ≤ 1)
  obtain ⟨ua, ub⟩ := Clamp_mem (v := Lerp (chordParam cp) a b) hab
  rw [← e1] at ua ub
  have hwid := abs_hitWidthAt_le M common ray a b h.uv.x hab ua ub hwa hwb
    (fun hr => hs hr _ ua ub)
  set p := EvalBezier cp (Clamp (chordParam cp) 0 1) with hp
  set m := max (Lerp a common.width0 common.width1) (Lerp b common.width0 common.width1)
    with hm
  have hsq : p.x * p.x + p.y * p.y ≤ ((1 / 2) * |hitWidthAt M common ray h.uv.x|) ^ 2 := by
    have : ((1 / 2) * |hitWidthAt M common ray h.uv.x|) ^ 2 =
        hitWidthAt M common ray h.uv.x * hitWidthAt M common ray h.uv.x * (1 / 4) := by
      rw [mul_pow, sq_abs]; ring
    rw [this]; exact e3
  have hr0 : 0 ≤ (1 / 2) * |hitWidthAt M common ray h.uv.x| := by positivity
  have hx : |p.x| ≤ (1 / 2) * m := by
    have : |p.x| ≤ (1 / 2) * |hitWidthAt M common ray h.uv.x| :=
      abs_le_of_sq_le_sq' (by nlinarith [mul_self_nonneg p.y]) hr0 |> abs_le.mpr
    linarith
  have hy : |p.y| ≤ (1 / 2) * m := by
    have : |p.y| ≤ (1 / 2) * |hitWidthAt M common ray h.uv.x| :=
      abs_le_of_sq_le_sq' (by nlinarith [mul_self_nonneg p.x]) hr0 |> abs_le.mpr
    linarith
  have ex := evalCoord_mem_hull (a := cp.p0.x) (b := cp.p1.x) (c := cp.p2.x) (d := cp.p3.x)
    c0 c1
  have ey := evalCoord_mem_hull (a := cp.p0.y) (b := cp.p1.y) (c := cp.p2.y) (d := cp.p3.y)
    c0 c1
  have ez := evalCoord_mem_hull (a := cp.p0.z) (b := cp.p1.z) (c := cp.p2.z) (d := cp.p3.z)
    c0 c1
  rw [← EvalBezier_x, ← hp] at ex
  rw [← EvalBezier_y, ← hp] at ey
  rw [← EvalBezier_z, ← hp] at ez
  unfold cullOverlaps
  rw [Overlaps_iff]
  refine ⟨overlap_of_point ex.1 ex.2 hx, overlap_of_point ey.1 ey.2 hy, ?_, ?_⟩
  · exact le_trans (min_le_left _ _) (le_trans e4 ez.2)
  · exact le_trans ez.1 (le_trans e5 (le_max_right _ _))

/-- The recursion without the cull at depth zero and at positive depth. -/
theorem recursiveIntersectNoCull_succ (M : FloatMath) (common : CurveCommon) (ray : Ray)
    (cp : CP4) (u0 u1 : ℚ) (depth : Nat) :
    recursiveIntersectNoCull M common ray cp u0 u1 (depth + 1) =
      (recursiveIntersectNoCull M common ray (SubdivideBezier cp).lo u0
        ((1 / 2) * (u0 + u1)) depth).or
      (recursiveIntersectNoCull M common ray (SubdivideBezier cp).hi
        ((1 / 2) * (u0 + u1)) u1 depth) := by
  rw [recursiveIntersectNoCull]
  cases recursiveIntersectNoCull M common ray (SubdivideBezier cp).lo u0
    ((1 / 2) * (u0 + u1)) depth <;> rfl

/-- A call whose cull fails has no leaf below it that would report a hit. -/
theorem recursiveIntersect_none_of_cull (M : FloatMath) (common : CurveCommon) (ray : Ray)
    (cp : CP4) (u0 u1 : ℚ) (depth : Nat) (h01 : u0 ≤ u1)
    (hw : ∀ u, u0 ≤ u → u ≤ u1 → 0 ≤ Lerp u common.width0 common.width1)
    (hs : common.curveType = CurveType.Ribbon →
      ∀ u, u0 ≤ u → u ≤ u1 → ribbonScale M common ray u ≤ 1)
    (hc : cullOverlaps M common ray cp u0 u1 = false) :
    ∀ s ∈ leafSegments depth cp u0 u1, leafIntersect M common ray s.1 s.2.1 s.2.2 = none := by
  intro s hs'
  obtain ⟨n1, n2, n3⟩ := leafSegments_nested depth cp u0 u1 h01 s hs'
  cases hleaf : leafIntersect M common ray s.1 s.2.1 s.2.2 with
  | none => rfl
  | some h =>
    have hcs := leaf_hit_cull M common ray s.1 s.2.1 s.2.2 h n2
      (hw _ n1 (le_trans n2 n3)) (hw _ (le_trans n1 n2) n3)
      (fun hr u hu0 hu1 => hs hr u (le_trans n1 hu0) (le_trans hu1 n3)) hleaf
    have hroot := leaf_cull_root M common ray depth cp u0 u1 (hw _ (le_refl _) h01)
      (hw _ h01 (le_refl _)) s hs' hcs
    rw [hc] at hroot
    exact Bool.noConfusion hroot

/-- The recursion without the cull misses when every leaf test misses. -/
theorem recursiveIntersectNoCull_none (M : FloatMath) (common : CurveCommon) (ray : Ray)
    (depth : Nat) : ∀ (cp : CP4) (u0 u1 : ℚ),
    (∀ s ∈ leafSegments depth cp u0 u1, leafIntersect M common ray s.1 s.2.1 s.2.2 = none) →
    recursiveIntersectNoCull M common ray cp u0 u1 depth = none := by
  induction depth with
  | zero =>
    intro cp u0 u1 hall
    rw [recursiveIntersectNoCull]
    exact hall (cp, u0, u1) (by simp [leafSegments])
  | succ d ih =>
    intro cp u0 u1 hall
    rw [recursiveIntersectNoCull_succ]
    rw [ih _ _ _ (fun s hs => hall s (by simp only [leafSegments, List.mem_append]; exact Or.inl hs)),
      ih _ _ _ (fun s hs => hall s (by simp only [leafSegments, List.mem_append]; exact Or.inr hs))]
    rfl

/-- For a Flat or Cylinder curve, non-negative endpoint widths and
`0 ≤ u0 ≤ u1 ≤ 1`, `recursiveIntersect` returns what its variant without the
cull returns, at every depth: the same hit or miss and the same values
written. -/
theorem cull_keeps_result_non_ribbon (M : FloatMath) (common : CurveCommon) (ray : Ray)
    (cp : CP4) (u0 u1 : ℚ) (depth : Nat)
    (hw0 : 0 ≤ common.width0) (hw1 : 0 ≤ common.width1)
    (h0 : 0 ≤ u0) (h01 : u0 ≤ u1) (h1 : u1 ≤ 1)
    (hnr : common.curveType ≠ CurveType.Ribbon) :
    recursiveIntersect M common ray cp u0 u1 depth =
      recursiveIntersectNoCull M common ray cp u0 u1 depth := by
  induction depth generalizing cp u0 u1 with
  | zero =>
    rw [recursiveIntersect_zero, recursiveIntersectNoCull]
    split_ifs with hc
    · symm
      exact recursiveIntersect_none_of_cull M common ray cp u0 u1 0 h01
        (fun u hu0 hu1 => Lerp_ge (le_trans h0 hu0) (le_trans hu1 h1) hw0 hw1)
        (fun hr => absurd hr hnr) hc (cp, u0, u1)
        (by simp [leafSegments])
    · rfl
  | succ d ih =>
    rw [recursiveIntersect_succ]
    split_ifs with hc
    · symm
      apply recursiveIntersectNoCull_none
      exact recursiveIntersect_none_of_cull M common ray cp u0 u1 (d + 1) h01
        (fun u hu0 hu1 => Lerp_ge (le_trans h0 hu0) (le_trans hu1 h1) hw0 hw1)
        (fun hr => absurd hr hnr) hc
    · rw [recursiveIntersectNoCull_succ,
        ih _ _ _ h0 (by linarith) (by linarith), ih _ _ _ (by linarith) (by linarith) h1]

/-! ## Derivative and flatness -/

/-- The coordinate of the vector `3 * (cp2[1] - cp2[0])` that `EvalBezier`
writes to `deriv`. -/
theorem EvalBezierDeriv_x (cp : CP4) (t : ℚ) :
    (EvalBezierDeriv cp t).x =
      3 * (Lerp t (Lerp t cp.p1.x cp.p2.x) (Lerp t cp.p2.x cp.p3.x) -
        Lerp t (Lerp t cp.p0.x cp.p1.x) (Lerp t cp.p1.x cp.p2.x)) := rfl

/-- The scalar cubic of `EvalBezier` has the derivative that `EvalBezier`
writes, `3 * (cp2[1] - cp2[0])`, at every `t`. -/
theorem evalCoord_hasDerivAt (a b c d t : ℚ) :
    HasDerivAt (fun s : ℚ => evalCoord s a b c d)
      (3 * (Lerp t (Lerp t b c) (Lerp t c d) - Lerp t (Lerp t a b) (Lerp t b c))) t := by
  have hpoly : (fun s : ℚ => evalCoord s a b c d) =
      fun s : ℚ => a + 3 * (b - a) * s + 3 * (a - 2 * b + c) * s ^ 2 +
        (d - 3 * c + 3 * b - a) * s ^ 3 := by
    funext s; unfold evalCoord Lerp; ring
  rw [hpoly]
  have hd : HasDerivAt (fun s : ℚ => a + 3 * (b - a) * s + 3 * (a - 2 * b + c) * s ^ 2 +
        (d - 3 * c + 3 * b - a) * s ^ 3)
      (0 + 3 * (b - a) * 1 + 3 * (a - 2 * b + c) * (2 * t ^ 1 * 1) +
        (d - 3 * c + 3 * b - a) * (3 * t ^ 2 * 1)) t := by
    apply HasDerivAt.add
    · apply HasDerivAt.add
      · apply HasDerivAt.add
        · exact hasDerivAt_const t a
        · exact (hasDerivAt_id t).const_mul _
      · exact ((hasDerivAt_id t).pow 2).const_mul _
    · exact ((hasDerivAt_id t).pow 3).const_mul _
  convert hd using 1
  unfold Lerp; ring

/-- C15: for every `cp` and `t`, the vector `3 * (cp2[1] - cp2[0])` that
`EvalBezier` writes to `deriv` is, coordinate by coordinate, the derivative at
`t` of the cubic `s ↦ EvalBezier(cp, s)`; at `t = 0` it is
`3 * (cp[1] - cp[0])` and at `t = 1` it is `3 * (cp[3] - cp[2])`. -/
theorem evalBezier_derivative (cp : CP4) (t : ℚ) :
    HasDerivAt (fun s : ℚ => (EvalBezier cp s).x) (EvalBezierDeriv cp t).x t ∧
    HasDerivAt (fun s : ℚ => (EvalBezier cp s).y) (EvalBezierDeriv cp t).y t ∧
    HasDerivAt (fun s : ℚ => (EvalBezier cp s).z) (EvalBezierDeriv cp t).z t ∧
    EvalBezierDeriv cp 0 = Point3f.smul 3 (Point3f.sub cp.p1 cp.p0) ∧
    EvalBezierDeriv cp 1 = Point3f.smul 3 (Point3f.sub cp.p3 cp.p2) := by
  refine ⟨evalCoord_hasDerivAt cp.p0.x cp.p1.x cp.p2.x cp.p3.x t,
    evalCoord_hasDerivAt cp.p0.y cp.p1.y cp.p2.y cp.p3.y t,
    evalCoord_hasDerivAt cp.p0.z cp.p1.z cp.p2.z cp.p3.z t, ?_, ?_⟩
  · apply Point3f.ext_xyz <;>
      simp only [EvalBezierDeriv, Lerp3, Point3f.add, Point3f.smul, Point3f.sub] <;> ring
  · apply Point3f.ext_xyz <;>
      simp only [EvalBezierDeriv, Lerp3, Point3f.add, Point3f.smul, Point3f.sub] <;> ring

/-- The second differences of the two children of the subdivision: a quarter
of a second difference of the parent, or an eighth of the sum of both. -/
theorem second_difference_children (a b c d : ℚ) :
    a - 2 * ((a + b) / 2) + (a + 2 * b + c) / 4 = (a - 2 * b + c) / 4 ∧
    (a + b) / 2 - 2 * ((a + 2 * b + c) / 4) + (a + 3 * b + 3 * c + d) / 8 =
      ((a - 2 * b + c) + (b - 2 * c + d)) / 8 ∧
    (a + 3 * b + 3 * c + d) / 8 - 2 * ((b + 2 * c + d) / 4) + (c + d) / 2 =
      ((a - 2 * b + c) + (b - 2 * c + d)) / 8 ∧
    (b + 2 * c + d) / 4 - 2 * ((c + d) / 2) + d = (b - 2 * c + d) / 4 := by
  refine ⟨?_, ?_, ?_, ?_⟩ <;> ring

/-- Bounds of the absolute second differences of the children by a quarter of
a bound `L` of those of the parent. -/
theorem abs_second_difference_children {a b c d L : ℚ} (h0 : |a - 2 * b + c| ≤ L)
    (h1 : |b - 2 * c + d| ≤ L) :
    |a - 2 * ((a + b) / 2) + (a + 2 * b + c) / 4| ≤ L / 4 ∧
    |(a + b) / 2 - 2 * ((a + 2 * b + c) / 4) + (a + 3 * b + 3 * c + d) / 8| ≤ L / 4 ∧
    |(a + 3 * b + 3 * c + d) / 8 - 2 * ((b + 2 * c + d) / 4) + (c + d) / 2| ≤ L / 4 ∧
    |(b + 2 * c + d) / 4 - 2 * ((c + d) / 2) + d| ≤ L / 4 := by
  obtain ⟨e1, e2, e3, e4⟩ := second_difference_children a b c d
  rw [e1, e2, e3, e4]
  obtain ⟨l0, u0⟩ := abs_le.mp h0
  obtain ⟨l1, u1⟩ := abs_le.mp h1
  refine ⟨abs_le.mpr ⟨?_, ?_⟩, abs_le.mpr ⟨?_, ?_⟩, abs_le.mpr ⟨?_, ?_⟩, abs_le.mpr ⟨?_, ?_⟩⟩ <;>
    linarith

/-- The four absolute second differences are bounded by `L0`, and `L0` is
bounded by every non-negative bound of the four. -/
theorem secondDifferenceL0_spec (cp : CP4) :
    |cp.p0.x - 2 * cp.p1.x + cp.p2.x| ≤ secondDifferenceL0 cp ∧
    |cp.p0.y - 2 * cp.p1.y + cp.p2.y| ≤ secondDifferenceL0 cp ∧
    |cp.p1.x - 2 * cp.p2.x + cp.p3.x| ≤ secondDifferenceL0 cp ∧
    |cp.p1.y - 2 * cp.p2.y + cp.p3.y| ≤ secondDifferenceL0 cp ∧
    0 ≤ secondDifferenceL0 cp := by
  unfold secondDifferenceL0
  simp only
  refine ⟨?_, ?_, ?_, ?_, ?_⟩
  · exact le_trans (le_max_left _ _) (le_trans (le_max_right _ _) (le_max_left _ _))
  · exact le_trans (le_max_right _ _) (le_trans (le_max_right _ _) (le_max_left _ _))
  · exact le_trans (le_max_left _ _) (le_max_right _ _)
  · exact le_trans (le_max_right _ _) (le_max_right _ _)
  · exact le_trans (le_max_left _ _) (le_max_left _ _)

/-- A non-negative bound of the four absolute second differences bounds `L0`. -/
theorem secondDifferenceL0_le {cp : CP4} {B : ℚ} (hB : 0 ≤ B)
    (h1 : |cp.p0.x - 2 * cp.p1.x + cp.p2.x| ≤ B) (h2 : |cp.p0.y - 2 * cp.p1.y + cp.p2.y| ≤ B)
    (h3 : |cp.p1.x - 2 * cp.p2.x + cp.p3.x| ≤ B) (h4 : |cp.p1.y - 2 * cp.p2.y + cp.p3.y| ≤ B) :
    secondDifferenceL0 cp ≤ B := by
  unfold secondDifferenceL0
  simp only
  exact max_le (max_le hB (max_le h1 h2)) (max_le h3 h4)

/-- One subdivision quarters the measure `L0` in both children. -/
theorem secondDifferenceL0_children (cp : CP4) :
    secondDifferenceL0 (SubdivideBezier cp).lo ≤ secondDifferenceL0 cp / 4 ∧
    secondDifferenceL0 (SubdivideBezier cp).hi ≤ secondDifferenceL0 cp / 4 := by
  obtain ⟨h1, h2, h3, h4, h5⟩ := secondDifferenceL0_spec cp
  obtain ⟨x1, x2, x3, x4⟩ := abs_second_difference_children h1 h3
  obtain ⟨y1, y2, y3, y4⟩ := abs_second_difference_children h2 h4
  have hq : 0 ≤ secondDifferenceL0 cp / 4 := by linarith
  constructor
  · exact secondDifferenceL0_le hq x1 y1 x2 y2
  · exact secondDifferenceL0_le hq x3 y3 x4 y4

/-- C16: with `L(c)` the largest of `|c[i].x - 2 c[i+1].x + c[i+2].x|` and
`|c[i].y - 2 c[i+1].y + c[i+2].y|` over `i = 0, 1`, which is the `L0` of
`Curve::Intersect`, both children of `SubdivideBezier` have
`L ≤ L(cp) / 4`, and every control-point set at level `k` of the recursion
has `L ≤ L(cp) / 4 ^ k`. -/
theorem subdivision_quarters_flatness (cp : CP4) :
    secondDifferenceL0 cp =
      max (max |cp.p0.x - 2 * cp.p1.x + cp.p2.x| |cp.p0.y - 2 * cp.p1.y + cp.p2.y|)
        (max |cp.p1.x - 2 * cp.p2.x + cp.p3.x| |cp.p1.y - 2 * cp.p2.y + cp.p3.y|) ∧
    secondDifferenceL0 (SubdivideBezier cp).lo ≤ secondDifferenceL0 cp / 4 ∧
    secondDifferenceL0 (SubdivideBezier cp).hi ≤ secondDifferenceL0 cp / 4 ∧
    ∀ (k : Nat) (u0 u1 : ℚ), ∀ s ∈ leafSegments k cp u0 u1,
      secondDifferenceL0 s.1 ≤ secondDifferenceL0 cp / 4 ^ k := by
  refine ⟨?_, (secondDifferenceL0_children cp).1, (secondDifferenceL0_children cp).2, ?_⟩
  · have h0 : (0 : ℚ) ≤
        max |cp.p0.x - 2 * cp.p1.x + cp.p2.x| |cp.p0.y - 2 * cp.p1.y + cp.p2.y| :=
      le_trans (abs_nonneg (cp.p0.x - 2 * cp.p1.x + cp.p2.x)) (le_max_left _ _)
    unfold secondDifferenceL0
    simp only
    rw [max_eq_right h0]
  intro k
  induction k generalizing cp with
  | zero =>
    intro u0 u1 s hs
    simp only [leafSegments, List.mem_singleton] at hs
    subst hs
    simp
  | succ n ih =>
    intro u0 u1 s hs
    simp only [leafSegments, List.mem_append] at hs
    have hpow : (0 : ℚ) < 4 ^ n := by positivity
    have hstep : ∀ c : CP4, secondDifferenceL0 c ≤ secondDifferenceL0 cp / 4 →
        secondDifferenceL0 c / 4 ^ n ≤ secondDifferenceL0 cp / 4 ^ (n + 1) := by
      intro c hc
      have h1 := div_le_div_of_nonneg_right hc (le_of_lt hpow)
      have h2 : secondDifferenceL0 cp / 4 / 4 ^ n = secondDifferenceL0 cp / 4 ^ (n + 1) := by
        rw [pow_succ, div_div, mul_comm]
      rw [h2] at h1
      exact h1
    rcases hs with hs | hs
    · exact le_trans (ih _ _ _ s hs) (hstep _ (secondDifferenceL0_children cp).1)
    · exact le_trans (ih _ _ _ s hs) (hstep _ (secondDifferenceL0_children cp).2)

/-! ## The factory -/

/-- The shift `1 << splitDepth`, when defined, is negative or at least 1. -/
theorem shiftLeftOne_sign (sd n : Int) (h : shiftLeftOne sd = some n) : n < 0 ∨ 1 ≤ n := by
  unfold shiftLeftOne at h
  split_ifs at h with hr
  have hn := Option.some.inj h
  obtain ⟨k, hk⟩ := Int.eq_ofNat_of_zero_le hr.1
  subst hk
  rw [Int.toNat_ofNat] at hn
  by_cases hk30 : k ≤ 30
  · rw [wrapInt32_pow k hk30] at hn
    right
    rw [← hn]
    exact one_le_pow₀ (by norm_num)
  · have hk31 : k = 31 := by omega
    subst hk31
    left
    rw [← hn]
    decide

/-- The function `CreateCurve` never returns an empty vector. -/
theorem createCurve_ne_nil (M : FloatMath) (rev : Bool) (c : CP4) (w0 w1 : ℚ)
    (type : CurveType) (norm : Option (Normal3f × Normal3f)) (sd : Int) :
    CreateCurve M rev c w0 w1 type norm sd ≠ some [] := by
  unfold CreateCurve
  simp only
  cases hs : shiftLeftOne sd with
  | none => simp
  | some n =>
    simp only
    split_ifs with hneg
    · simp
    · rcases shiftLeftOne_sign sd n hs with h | h
      · exact absurd h hneg
      · intro hcon
        have hlen := congrArg (fun o => o.map List.length) hcon
        simp only [Option.map_some', List.length_map, List.length_range, List.length_nil,
          Option.some.injEq] at hlen
        omega

/-- The function `CreateCurveShape` on a parameter set that it does not
reject: the call of `CreateCurve`. -/
theorem createCurveShape_accept (M : FloatMath) (rev : Bool) (params : ParamSet)
    (h : ¬ paramsRejected params) :
    CreateCurveShape M rev params = createCurveCall M rev params := by
  unfold paramsRejected at h
  push_neg at h
  obtain ⟨hP, hN⟩ := h
  unfold CreateCurveShape createCurveCall
  simp only [ne_eq, hP, not_true_eq_false, ↓reduceIte]
  by_cases hr : resolveCurveType (params.type.getD ("flat")) = CurveType.Ribbon
  · obtain ⟨hne, hl⟩ := hN hr
    cases hNv : params.N with
    | none => exact absurd hNv hne
    | some l =>
      have hl2 : l.length = 2 := hl l hNv
      simp [hr, hl2]
  · cases hNv : params.N with
    | none => simp [hr]
    | some l => simp [hr]

/-- The function `CreateCurveShape` on a parameter set that it rejects: the
empty vector. -/
theorem createCurveShape_reject (M : FloatMath) (rev : Bool) (params : ParamSet)
    (h : paramsRejected params) : CreateCurveShape M rev params = some [] := by
  unfold CreateCurveShape
  simp only [ne_eq]
  rcases h with hP | ⟨hr, hN⟩
  · rw [if_pos hP]
  · by_cases hP : (params.P.getD []).length = 4
    · rcases hN with hN | ⟨l, hN, hl⟩
      · simp [hP, hN, hr]
      · simp [hP, hN, hr, hl]
    · rw [if_pos hP]

/-- C11: `CreateCurveShape` returns an empty segment list if and only if the
number of control points given in `P` is not 4, or the resolved type is
`Ribbon` and `N` is absent or does not hold exactly 2 normals; in every other
case, a non-ribbon type with any number of normals included, it returns what
`CreateCurve` returns for the resolved arguments, which are `2 ^ splitdepth`
segments for a split depth from `0` to `30`. -/
theorem createCurveShape_empty_iff (M : FloatMath) (rev : Bool) (params : ParamSet) :
    (CreateCurveShape M rev params = some [] ↔ paramsRejected params) ∧
    (¬ paramsRejected params →
      CreateCurveShape M rev params = createCurveCall M rev params) ∧
    (¬ paramsRejected params → ∀ k : Nat, k ≤ 30 →
      floatToInt (params.splitdepth.getD 2) = (k : Int) →
      ∃ segments, CreateCurveShape M rev params = some segments ∧ segments.length = 2 ^ k) := by
  refine ⟨⟨?_, createCurveShape_reject M rev params⟩, createCurveShape_accept M rev params, ?_⟩
  · intro he
    by_contra hn
    rw [createCurveShape_accept M rev params hn] at he
    exact createCurve_ne_nil _ _ _ _ _ _ _ _ he
  · intro hn k hk hsd
    rw [createCurveShape_accept M rev params hn]
    unfold createCurveCall
    simp only [hsd]
    rw [createCurve_eq _ _ _ _ _ _ _ k hk]
    exact ⟨_, rfl, by simp⟩

/-- Every segment that `CreateCurve` returns holds the descriptor built from
its arguments. -/
theorem createCurve_common (M : FloatMath) (rev : Bool) (c : CP4) (w0 w1 : ℚ)
    (type : CurveType) (norm : Option (Normal3f × Normal3f)) (sd : Int)
    (segments : List Curve) (h : CreateCurve M rev c w0 w1 type norm sd = some segments) :
    ∀ s ∈ segments, s.common = CurveCommon.ctor M c w0 w1 type norm := by
  unfold CreateCurve at h
  simp only at h
  cases hs : shiftLeftOne sd with
  | none => rw [hs] at h; exact Option.noConfusion h
  | some n =>
    rw [hs] at h
    simp only at h
    split_ifs at h
    rw [← Option.some.inj h]
    intro s hsm
    simp only [List.mem_map, List.mem_range] at hsm
    obtain ⟨i, -, rfl⟩ := hsm
    rfl

/-- The constructor stores the type it is given. -/
theorem ctor_curveType (M : FloatMath) (c : CP4) (w0 w1 : ℚ) (type : CurveType)
    (norm : Option (Normal3f × Normal3f)) :
    (CurveCommon.ctor M c w0 w1 type norm).curveType = type := by
  unfold CurveCommon.ctor
  cases norm with
  | none => rfl
  | some p => rfl

/-- C13: an absent `type` resolves to `Flat`; the strings `flat`, `ribbon` and
`cylinder` resolve to `Flat`, `Ribbon` and `Cylinder`; every other string
resolves to `Cylinder`, and with 4 control points such a parameter set is not
rejected, whether `N` is supplied or not: the result is that of `CreateCurve`
for the type `Cylinder` without normals, and every segment returned is a
`Cylinder` segment. -/
theorem createCurveShape_type_resolution (M : FloatMath) (rev : Bool) :
    (∀ params : ParamSet, params.type = none →
      resolveCurveType (params.type.getD ("flat")) = CurveType.Flat) ∧
    resolveCurveType ("flat") = CurveType.Flat ∧
    resolveCurveType ("ribbon") = CurveType.Ribbon ∧
    resolveCurveType ("cylinder") = CurveType.Cylinder ∧
    (∀ s : String, s ≠ "flat" → s ≠ "ribbon" → s ≠ "cylinder" →
      resolveCurveType s = CurveType.Cylinder) ∧
    (∀ (params : ParamSet) (s : String), params.type = some s →
      s ≠ "flat" → s ≠ "ribbon" → s ≠ "cylinder" → (params.P.getD []).length = 4 →
      CreateCurveShape M rev params =
        CreateCurve M rev
          ⟨(params.P.getD []).getD 0 ⟨0, 0, 0⟩, (params.P.getD []).getD 1 ⟨0, 0, 0⟩,
            (params.P.getD []).getD 2 ⟨0, 0, 0⟩, (params.P.getD []).getD 3 ⟨0, 0, 0⟩⟩
          (params.width0.getD (params.width.getD 1)) (params.width1.getD (params.width.getD 1))
          CurveType.Cylinder none (floatToInt (params.splitdepth.getD 2)) ∧
      ∀ segments, CreateCurveShape M rev params = some segments →
        segments ≠ [] ∧ ∀ c ∈ segments, c.common.curveType = CurveType.Cylinder) := by
  have hunk : ∀ s : String, s ≠ "flat" → s ≠ "ribbon" → s ≠ "cylinder" →
      resolveCurveType s = CurveType.Cylinder := by
    intro s h1 h2 h3
    unfold resolveCurveType
    rw [if_neg h1, if_neg h2, if_neg h3]
  refine ⟨?_, by decide, by decide, by decide, hunk, ?_⟩
  · intro params hnone
    rw [hnone]
    decide
  · intro params s hs h1 h2 h3 hP
    have hres : resolveCurveType (params.type.getD ("flat")) = CurveType.Cylinder := by
      rw [hs]; exact hunk s h1 h2 h3
    have hnr : ¬ paramsRejected params := by
      unfold paramsRejected
      rw [hres]
      push_neg
      exact ⟨hP, fun hc => absurd hc (by decide)⟩
    have hcall : CreateCurveShape M rev params =
        CreateCurve M rev
          ⟨(params.P.getD []).getD 0 ⟨0, 0, 0⟩, (params.P.getD []).getD 1 ⟨0, 0, 0⟩,
            (params.P.getD []).getD 2 ⟨0, 0, 0⟩, (params.P.getD []).getD 3 ⟨0, 0, 0⟩⟩
          (params.width0.getD (params.width.getD 1)) (params.width1.getD (params.width.getD 1))
          CurveType.Cylinder none (floatToInt (params.splitdepth.getD 2)) := by
      rw [createCurveShape_accept M rev params hnr]
      unfold createCurveCall
      simp only [hres]
      rfl
    refine ⟨hcall, ?_⟩
    intro segments hseg
    rw [hcall] at hseg
    constructor
    · intro hnil
      rw [hnil] at hseg
      exact createCurve_ne_nil _ _ _ _ _ _ _ _ hseg
    · intro c hc
      rw [createCurve_common _ _ _ _ _ _ _ _ _ hseg c hc, ctor_curveType]

/-- C12 at the failing input: for the ribbon built from the normal `(0,1,0)`
twice, `normalAngle` is `0`, the constructor divides `1` by
`sin(normalAngle) = 0`, and the leaf multiplies by that quotient: for a ray
along the normal, where `|n · (-ray.d / |ray.d|)| = 1` and the claim gives the
width `1/5`, the scale factor and the effective width computed are `0` (with
`x / 0 = 0`; the floating-point quotient is infinite and the product with
`sin 0 = 0` is not a number). -/
theorem ribbon_same_normals_scale :
    sameNormalCommon.n0 = sameNormalCommon.n1 ∧
    sameNormalCommon.normalAngle = 0 ∧
    ribbonMath.sin sameNormalCommon.normalAngle = 0 ∧
    sameNormalCommon.invSinNormalAngle = 1 / ribbonMath.sin sameNormalCommon.normalAngle ∧
    AbsDot sameNormalCommon.n0
      (Point3f.sdiv (Point3f.neg alongNormalRay.d) (Length ribbonMath alongNormalRay.d)) = 1 ∧
    ribbonScale ribbonMath sameNormalCommon alongNormalRay (1 / 2) = 0 ∧
    hitWidthAt ribbonMath sameNormalCommon alongNormalRay (1 / 2) = 0 ∧
    Lerp (1 / 2) sameNormalCommon.width0 sameNormalCommon.width1 *
      AbsDot sameNormalCommon.n0
        (Point3f.sdiv (Point3f.neg alongNormalRay.d) (Length ribbonMath alongNormalRay.d)) =
      1 / 5 := by
  decide!

/-- C14 at a concrete input: the left child of the hairpin, called at depth `0`
and nesting level `2` from the root call of depth `1`. -/
theorem recursion_invariant_witness :
    ∃ a b : ℚ, 0 ≤ a ∧ a ≤ b ∧ b ≤ 1 ∧
      (∀ s, EvalBezier (SubdivideBezier hairpinCP).lo s =
        EvalBezier hairpinCP (Lerp s a b)) ∧
      (0 : ℚ) = Lerp a 0 1 ∧ (1 / 2 : ℚ) = Lerp b 0 1 :=
  recursion_invariant exactMath (flatCommon hairpinCP 2) axisRay hairpinCP 0 1 1
    ⟨(SubdivideBezier hairpinCP).lo, 0, 1 / 2, 0, 2⟩ (by decide!)

/-- C11 at concrete inputs: three points in `P`, and type `ribbon` without `N`,
give the empty list; four points with the unknown type `tube` and one normal
give the segments of `CreateCurve`. -/
theorem createCurveShape_empty_iff_witness :
    CreateCurveShape exactMath false threePointParams = some [] ∧
    CreateCurveShape exactMath false ribbonNoNormalParams = some [] ∧
    CreateCurveShape exactMath false tubeParams = createCurveCall exactMath false tubeParams :=
  ⟨(createCurveShape_empty_iff exactMath false threePointParams).1.mpr (Or.inl (by decide)),
    (createCurveShape_empty_iff exactMath false ribbonNoNormalParams).1.mpr
      (Or.inr ⟨by decide, Or.inl rfl⟩),
    (createCurveShape_empty_iff exactMath false tubeParams).2.1
      (fun h => h.elim (fun hP => hP (by decide)) (fun hR => absurd hR.1 (by decide)))⟩

/-- C13 at a concrete input: four points, the unknown type `tube` and one
normal give the four `Cylinder` segments of the default split depth `2`. -/
theorem createCurveShape_type_resolution_witness :
    CreateCurveShape exactMath false tubeParams =
      CreateCurve exactMath false straightCP 1 1 CurveType.Cylinder none 2 ∧
    ∀ segments, CreateCurveShape exactMath false tubeParams = some segments →
      segments ≠ [] ∧ ∀ c ∈ segments, c.common.curveType = CurveType.Cylinder :=
  (createCurveShape_type_resolution exactMath false).2.2.2.2.2 tubeParams ("tube") rfl
    (by decide) (by decide) (by decide) (by decide)

end Pbrt
